import Mathlib

/-!
Verification development for the FFmpeg AVMap / AVTree subsystem
(libavutil/tree.c and the arena-backed map of libavutil/map.c, with its
public header map.h).

The development has three layers:

1. a pure tree layer: `AVTree`, `avTreeFind2`, `treeFindNext`,
   `avTreeInsert` (which, as in tree.c, performs both insertion and
   deletion depending on whether a caller-supplied node is passed in
   through `next`), transcribed node-for-node from tree.c;

2. an index-level map layer (`MapB`): the arena is a list of committed
   entry runs addressed by slot index, the tree stores element pointers
   (slot indices, with user-supplied lookup keys living at addresses
   disjoint from the arena as they do in C), and the map operations
   `avMapAddB`, `avMapDelB`, `avMapGetB`, `avMapGetMultipleB`,
   `avMapIterateB`, `avMapCloneB` are transcribed from map.c.  Arena
   relocation is the identity at this level (slot indices are stable);
   the address-level consequences of relocation are modelled in layer 3;

3. address-level arithmetic for the relocation protocol
   (`av_map_realloc` / `av_tree_move`) and a buffer-identity model of
   `av_map_copy`'s rollback path.  Sizes follow the LP64 ABI that FFmpeg
   targets on x86-64/aarch64: `sizeof(AVMapEntry) = 24` (two pointers and
   two ints) and `sizeof(AVTreeNode) = 32` (three pointers and an int,
   padded to alignment 8).
-/

namespace AVTreeModel

/-- AVTreeNode from tree.c: `struct AVTreeNode { AVTreeNode *child[2]; void *elem; int state; }`.
`nil` is the NULL pointer. -/
inductive AVTree (α : Type) where
  | nil : AVTree α
  | node (c0 : AVTree α) (c1 : AVTree α) (elem : α) (state : Int) : AVTree α
deriving Repr, DecidableEq

variable {α : Type} {κ : Type}

/-- Height of a tree (0 for NULL). -/
def height : AVTree α → Nat
  | .nil => 0
  | .node c0 c1 _ _ => 1 + max (height c0) (height c1)

/-- The `state` field of a node (0 for NULL; the C code never reads the
state of a NULL node on the paths we follow). -/
def stateOf : AVTree α → Int
  | .nil => 0
  | .node _ _ _ s => s

/-- The child selected by index `i` (`child[0]` / `child[1]`). -/
def childOf (t : AVTree α) (i : Nat) : AVTree α :=
  match t with
  | .nil => .nil
  | .node c0 c1 _ _ => if i = 1 then c1 else c0

/-- In-order traversal of the elements. -/
def inorder : AVTree α → List α
  | .nil => []
  | .node c0 c1 e _ => inorder c0 ++ e :: inorder c1

/-- The actual signed height difference `height child[1] - height child[0]`. -/
def bal (c0 c1 : AVTree α) : Int := (height c1 : Int) - (height c0 : Int)

/-- Wellformedness from the spec's balance invariant: every node's `state`
equals the signed height difference of its subtrees and that difference is
within `[-1, 1]`. -/
def wfb : AVTree α → Bool
  | .nil => true
  | .node c0 c1 _ s =>
      wfb c0 && wfb c1 && decide (s = bal c0 c1) && decide (-1 ≤ s) && decide (s ≤ 1)

/-- The `next[4]` output array of `av_tree_find2` (entries are NULL until
written). -/
structure Next4 (α : Type) where
  n0 : Option α := none
  n1 : Option α := none
  n2 : Option α := none
  n3 : Option α := none
deriving Repr, DecidableEq

/-- Write slot `i` of a `Next4`. -/
def setN (nx : Next4 α) (i : Nat) (e : α) : Next4 α :=
  if i = 0 then { nx with n0 := some e }
  else if i = 1 then { nx with n1 := some e }
  else if i = 2 then { nx with n2 := some e }
  else { nx with n3 := some e }

/-- Sign bit of an int comparison result viewed as a 32-bit unsigned value
(`v >> 31` in tree.c): 1 exactly when the comparison result is negative. -/
def sgnBit (v : Int) : Nat := if v < 0 then 1 else 0

/-- Test for the NULL tree. -/
def isNil : AVTree α → Bool
  | .nil => true
  | .node _ _ _ _ => false

/-- tree_find_next from tree.c.  Walks a subtree of a matched node in
direction `dir`, recording the nearest non-equal element in `next[dir]` and
(when `nextlen >= 4`) the outermost equal element in `next[2+dir]`. -/
def treeFindNext (cmp : κ → α → Int) (key : κ) (nextlen : Nat) (dir : Nat) :
    AVTree α → Next4 α → Next4 α
  | .nil, nx => nx
  | .node c0 c1 e _, nx =>
      let v := cmp key e
      if v ≠ 0 then
        if dir = 1 then treeFindNext cmp key nextlen dir c0 (setN nx dir e)
        else treeFindNext cmp key nextlen dir c1 (setN nx dir e)
      else
        let nx := if 4 ≤ nextlen then setN nx (2 + dir) e else nx
        if dir = 1 then treeFindNext cmp key nextlen dir c1 nx
        else treeFindNext cmp key nextlen dir c0 nx

/-- av_tree_find2 from tree.c.  `nx = none` models a NULL `next` argument.
Returns the matched element (or `none`) together with the final contents of
the `next` array. -/
def avTreeFind2 (cmp : κ → α → Int) (key : κ) (nextlen : Nat) :
    AVTree α → Option (Next4 α) → Option α × Option (Next4 α)
  | .nil, nx => (none, nx)
  | .node c0 c1 e _, nx =>
      let v := cmp key e
      if v ≠ 0 then
        let nx := match nx with
                  | none => none
                  | some n => some (setN n (sgnBit v) e)
        if sgnBit v = 1 then avTreeFind2 cmp key nextlen c0 nx
        else avTreeFind2 cmp key nextlen c1 nx
      else
        match nx with
        | none => (some e, none)
        | some n =>
            let n := treeFindNext cmp key nextlen 0 c0 n
            let n := treeFindNext cmp key nextlen 1 c1 n
            (some e, some n)

/-- The single rotation of av_tree_insert (the `else` branch of the inner
rotation dispatch), on a node whose state was already incremented to `s`.
On a NULL child the C code would dereference NULL; that situation cannot
arise for balanced inputs and the model returns the tree unchanged. -/
def rotSingle (t1 : AVTree α) (i : Nat) : AVTree α :=
  match t1 with
  | .nil => t1
  | .node c0 c1 e s =>
      if i = 1 then
        match c1 with
        | .nil => .node c0 c1 e s
        | .node cc0 cc1 ce cs =>
            let ts : Int := if cs ≠ 0 then 0 else s / 2
            .node (.node c0 cc0 e ts) cc1 ce (-ts)
      else
        match c0 with
        | .nil => .node c0 c1 e s
        | .node cc0 cc1 ce cs =>
            let ts : Int := if cs ≠ 0 then 0 else s / 2
            .node cc0 (.node cc1 c1 e ts) ce (-ts)

/-- The double rotation of av_tree_insert (the branch taken when
`child->state * 2 == -state`).  Again the NULL cases cannot arise for
balanced inputs. -/
def rotDouble (t1 : AVTree α) (i : Nat) : AVTree α :=
  match t1 with
  | .nil => t1
  | .node c0 c1 e s =>
      if i = 1 then
        match c1 with
        | .node (.node r0 r1 re rs) cc1 ce _ =>
            .node (.node c0 r0 e (if 0 < rs then -1 else 0))
                  (.node r1 cc1 ce (if rs < 0 then 1 else 0)) re 0
        | _ => .node c0 c1 e s
      else
        match c0 with
        | .node cc0 (.node r0 r1 re rs) ce _ =>
            .node (.node cc0 r0 ce (if 0 < rs then -1 else 0))
                  (.node r1 c1 e (if rs < 0 then 1 else 0)) re 0
        | _ => .node c0 c1 e s

/-- The rebalancing step of av_tree_insert after `t->state += 2*i - 1`:
`if (!(t->state & 1)) { if (t->state) { rotate } }`. -/
def balanceStep (t1 : AVTree α) (i : Nat) : AVTree α :=
  match t1 with
  | .nil => t1
  | .node c0 c1 e s =>
      if s % 2 = 0 ∧ s ≠ 0 then
        if stateOf (if i = 1 then c1 else c0) * 2 = -s then
          rotDouble (.node c0 c1 e s) i
        else
          rotSingle (.node c0 c1 e s) i
      else
        .node c0 c1 e s

/-- Result of an av_tree_insert call: the C return value, the tree written
back through `*tp`, and the final `*next`.  A present node is `some v`
where `v` is the content of its `elem` field (`none` for a freshly zeroed
node). -/
structure InsRes (α : Type) where
  ret : Option α
  tree : AVTree α
  next : Option (Option α)
deriving Repr, DecidableEq

/-- The tail of av_tree_insert after the recursive call: on a non-NULL
return value nothing is rebalanced; on NULL the state is adjusted,
a rotation possibly applied, and the height-change protocol decides the
return value (`if (!(*tp)->state ^ !!*next) return key;`). -/
def insFixup (c0t c1t : AVTree α) (e : α) (s : Int) (key : α) (d : Nat)
    (r : InsRes α) : InsRes α :=
  match r.ret with
  | some _ => ⟨r.ret, .node c0t c1t e s, r.next⟩
  | none =>
      let i : Nat := d ^^^ (if r.next.isSome then 1 else 0)
      let t2 := balanceStep (.node c0t c1t e (s + 2 * i - 1)) i
      ⟨if (decide (stateOf t2 = 0)) != r.next.isSome then some key else none, t2, r.next⟩

/-- av_tree_insert from tree.c.  With `nx = some _` (a caller-supplied
node) this inserts `key`; with `nx = none` it unlinks the element equal to
`key` and hands its node back through the returned `next` field.  In the
delete-with-children branch, `next_elem[i]` is read from the uninitialized
stack array only when the subtree walk found no strictly-nearer element;
that situation is undefined behaviour in C (it cannot arise when `cmp`
orders the tree) and the model falls back to `key` there. -/
def avTreeInsert (cmp : α → α → Int) : AVTree α → α → Option (Option α) → InsRes α
  | .nil, key, nx =>
      match nx with
      | some _ => ⟨none, .node .nil .nil key 0, none⟩
      | none => ⟨some key, .nil, none⟩
  | .node c0 c1 e s, key, nx =>
      let v := cmp e key
      if v = 0 ∧ nx.isSome then
        ⟨some e, .node c0 c1 e s, nx⟩
      else if v = 0 ∧ isNil c0 ∧ isNil c1 then
        ⟨none, .nil, some (some e)⟩
      else
        let edk : α × Nat :=
          if v = 0 then
            let i : Nat := if isNil c0 then 1 else 0
            let fr := avTreeFind2 cmp key 2 (if i = 1 then c1 else c0)
              (some { n0 := none, n1 := none, n2 := none, n3 := none })
            let nb := (match fr.2 with
                       | some n => if i = 1 then n.n1 else n.n0
                       | none => none).getD key
            (nb, i)
          else
            (e, sgnBit v)
        if edk.2 = 1 then
          let r := avTreeInsert cmp c1 (if v = 0 then edk.1 else key) nx
          insFixup c0 r.tree edk.1 s (if v = 0 then edk.1 else key) 1 r
        else
          let r := avTreeInsert cmp c0 (if v = 0 then edk.1 else key) nx
          insFixup r.tree c1 edk.1 s (if v = 0 then edk.1 else key) 0 r


@[simp] theorem height_nil : height (.nil : AVTree α) = 0 := rfl

@[simp] theorem height_node {c0 c1 : AVTree α} {e : α} {s : Int} :
    height (.node c0 c1 e s) = 1 + max (height c0) (height c1) := rfl

@[simp] theorem stateOf_nil : stateOf (.nil : AVTree α) = 0 := rfl

@[simp] theorem stateOf_node {c0 c1 : AVTree α} {e : α} {s : Int} :
    stateOf (.node c0 c1 e s) = s := rfl

@[simp] theorem wfb_nil : wfb (.nil : AVTree α) = true := rfl

theorem wfb_node_iff {c0 c1 : AVTree α} {e : α} {s : Int} :
    wfb (.node c0 c1 e s) = true ↔
      (wfb c0 = true ∧ wfb c1 = true ∧ s = bal c0 c1 ∧ -1 ≤ s ∧ s ≤ 1) := by
  simp [wfb, and_assoc]

theorem wfb_nonnil_of_height {c : AVTree α} (h : 0 < height c) :
    ∃ d0 d1 de ds, c = AVTree.node d0 d1 de ds := by
  cases c with
  | nil => simp at h
  | node d0 d1 de ds => exact ⟨d0, d1, de, ds, rfl⟩

/-- When the incremented state stays within the AVL band no rotation runs. -/
theorem balanceStep_noRot {c0 c1 : AVTree α} {e : α} {s : Int} (i : Nat)
    (h1 : -1 ≤ s) (h2 : s ≤ 1) :
    balanceStep (.node c0 c1 e s) i = .node c0 c1 e s := by
  have hs : s = -1 ∨ s = 0 ∨ s = 1 := by omega
  rcases hs with rfl | rfl | rfl <;> simp [balanceStep]

set_option maxHeartbeats 1000000 in
/-- Behaviour of the rotation dispatch on a node whose (updated) state is a
true height difference of absolute value 2, with `i` the heavier side: the
result is wellformed, and its state tells whether its height came down to
`max` (state 0) or stayed at `1 + max` (other states). -/
theorem balanceStep_rot {c0 c1 : AVTree α} {e : α} {s : Int} {i : Nat}
    (hw0 : wfb c0 = true) (hw1 : wfb c1 = true)
    (hs : s = bal c0 c1) (habs : s = 2 ∨ s = -2)
    (hi : (s = 2 → i = 1) ∧ (s = -2 → i = 0)) :
    wfb (balanceStep (.node c0 c1 e s) i) = true ∧
    ((stateOf (balanceStep (.node c0 c1 e s) i) = 0 ∧
        height (balanceStep (.node c0 c1 e s) i) = max (height c0) (height c1)) ∨
     (stateOf (balanceStep (.node c0 c1 e s) i) ≠ 0 ∧
        height (balanceStep (.node c0 c1 e s) i) = 1 + max (height c0) (height c1))) := by
  rcases habs with rfl | rfl
  · -- right-heavy: height c1 = height c0 + 2, i = 1
    have hi1 : i = 1 := hi.1 rfl
    subst hi1
    have hc1 : height c1 = height c0 + 2 := by
      simp [bal] at hs; omega
    obtain ⟨d0, d1, de, ds, rfl⟩ := wfb_nonnil_of_height (c := c1) (by omega)
    obtain ⟨hwd0, hwd1, hds, hds1, hds2⟩ := wfb_node_iff.mp hw1
    simp only [bal] at hds
    simp only [height_node] at hc1
    have hcase : ds = -1 ∨ ds = 0 ∨ ds = 1 := by omega
    rcases hcase with rfl | rfl | rfl
    · -- double rotation (child leans toward us)
      have hd0 : height d0 = height c0 + 1 := by omega
      obtain ⟨r0, r1, re, rs, rfl⟩ := wfb_nonnil_of_height (c := d0) (by omega)
      obtain ⟨hwr0, hwr1, hrs, hrs1, hrs2⟩ := wfb_node_iff.mp hwd0
      simp only [bal] at hrs
      simp only [height_node] at hd0
      simp only [balanceStep, stateOf_node]
      norm_num
      simp only [rotDouble]
      norm_num
      have hrc : rs = -1 ∨ rs = 0 ∨ rs = 1 := by omega
      rcases hrc with rfl | rfl | rfl <;>
        · constructor
          · simp [wfb_node_iff, hw0, hwr0, hwr1, hwd1, bal]
            omega
          · omega
    · -- single rotation, child state 0 (delete path)
      simp only [balanceStep, stateOf_node]
      norm_num
      simp only [rotSingle]
      norm_num
      constructor
      · simp [wfb_node_iff, hw0, hwd0, hwd1, bal]
        omega
      · omega
    · -- single rotation, child state 1
      simp only [balanceStep, stateOf_node]
      norm_num
      simp only [rotSingle]
      norm_num
      constructor
      · simp [wfb_node_iff, hw0, hwd0, hwd1, bal]
        omega
      · omega
  · -- left-heavy: height c0 = height c1 + 2, i = 0
    have hi0 : i = 0 := hi.2 rfl
    subst hi0
    have hc0 : height c0 = height c1 + 2 := by
      simp [bal] at hs; omega
    obtain ⟨d0, d1, de, ds, rfl⟩ := wfb_nonnil_of_height (c := c0) (by omega)
    obtain ⟨hwd0, hwd1, hds, hds1, hds2⟩ := wfb_node_iff.mp hw0
    simp only [bal] at hds
    simp only [height_node] at hc0
    have hcase : ds = -1 ∨ ds = 0 ∨ ds = 1 := by omega
    rcases hcase with rfl | rfl | rfl
    · -- single rotation, child state -1
      simp only [balanceStep, stateOf_node]
      norm_num
      simp only [rotSingle]
      norm_num
      constructor
      · simp [wfb_node_iff, hw1, hwd0, hwd1, bal]
        omega
      · omega
    · -- single rotation, child state 0 (delete path)
      simp only [balanceStep, stateOf_node]
      norm_num
      simp only [rotSingle]
      norm_num
      constructor
      · simp [wfb_node_iff, hw1, hwd0, hwd1, bal]
        omega
      · omega
    · -- double rotation (child leans toward us)
      have hd1 : height d1 = height c1 + 1 := by omega
      obtain ⟨r0, r1, re, rs, rfl⟩ := wfb_nonnil_of_height (c := d1) (by omega)
      obtain ⟨hwr0, hwr1, hrs, hrs1, hrs2⟩ := wfb_node_iff.mp hwd1
      simp only [bal] at hrs
      simp only [height_node] at hd1
      simp only [balanceStep, stateOf_node]
      norm_num
      simp only [rotDouble]
      norm_num
      have hrc : rs = -1 ∨ rs = 0 ∨ rs = 1 := by omega
      rcases hrc with rfl | rfl | rfl <;>
        · constructor
          · simp [wfb_node_iff, hw1, hwr0, hwr1, hwd0, bal]
            omega
          · omega


set_option maxHeartbeats 1000000 in
/-- Effect of the post-recursion fixup when the recursive call was a
physical insertion that increased the height of child `d` from `H` to
`H + 1` (`ret == NULL`, `*next` consumed): the subtree stays wellformed and
its height grows exactly when the fixup returns NULL. -/
theorem insFixup_grow {a b : AVTree α} {e : α} {s : Int} {k : α} {d : Nat}
    {r : InsRes α} {H : Nat}
    (hd : d = 0 ∨ d = 1)
    (hret : r.ret = none) (hnext : r.next = none)
    (hw0 : wfb a = true) (hw1 : wfb b = true)
    (hs : s = if d = 1 then ((H : Int) - height a) else ((height b : Int) - H))
    (hs1 : -1 ≤ s) (hs2 : s ≤ 1)
    (hgrow : height (if d = 1 then b else a) = H + 1) :
    wfb (insFixup a b e s k d r).tree = true ∧
    (insFixup a b e s k d r).next = none ∧
    height (insFixup a b e s k d r).tree
      = (1 + max (if d = 1 then height a else H) (if d = 1 then H else height b))
        + (if (insFixup a b e s k d r).ret.isNone then 1 else 0) := by
  rcases hd with rfl | rfl
  · -- d = 0 : the left child grew
    norm_num at hs hgrow ⊢
    simp only [insFixup, hret, hnext, Option.isSome_none]
    norm_num
    have hcase : s = -1 ∨ s = 0 ∨ s = 1 := by omega
    rcases hcase with rfl | rfl | rfl
    · -- new state -2: rotation
      norm_num
      have hrot := balanceStep_rot (e := e) (i := 0) hw0 hw1
        (s := -2) (by simp only [bal]; omega) (Or.inr rfl)
        ⟨by omega, fun _ => rfl⟩
      rcases hrot.2 with ⟨hst, hh⟩ | ⟨hst, hh⟩
      · simp [hrot.1, hst, hh]
        omega
      · simp [hrot.1, hst, hh]
        omega
    · -- new state -1: no rotation
      norm_num
      simp [balanceStep, wfb_node_iff, hw0, hw1, bal]
      omega
    · -- new state 0: no rotation
      norm_num
      simp [balanceStep, wfb_node_iff, hw0, hw1, bal]
      omega
  · -- d = 1 : the right child grew
    norm_num at hs hgrow ⊢
    simp only [insFixup, hret, hnext, Option.isSome_none]
    norm_num
    have hcase : s = -1 ∨ s = 0 ∨ s = 1 := by omega
    rcases hcase with rfl | rfl | rfl
    · -- new state 0: no rotation
      norm_num
      simp [balanceStep, wfb_node_iff, hw0, hw1, bal]
      omega
    · -- new state 1: no rotation
      norm_num
      simp [balanceStep, wfb_node_iff, hw0, hw1, bal]
      omega
    · -- new state 2: rotation
      norm_num
      have hrot := balanceStep_rot (e := e) (i := 1) hw0 hw1
        (s := 2) (by simp only [bal]; omega) (Or.inl rfl)
        ⟨fun _ => rfl, by omega⟩
      rcases hrot.2 with ⟨hst, hh⟩ | ⟨hst, hh⟩
      · simp [hrot.1, hst, hh]
        omega
      · simp [hrot.1, hst, hh]
        omega


set_option maxHeartbeats 1000000 in
/-- Effect of the post-recursion fixup when the recursive call unlinked a
node below (`ret == NULL`, `*next` now holds the vacated node) and the
height of child `d` decreased from `H` to `H - 1`: the subtree stays
wellformed and its height shrinks exactly when the fixup returns NULL. -/
theorem insFixup_shrink {a b : AVTree α} {e : α} {s : Int} {k : α} {d : Nat}
    {r : InsRes α} {H : Nat}
    (hd : d = 0 ∨ d = 1)
    (hret : r.ret = none) (hnext : r.next.isSome = true)
    (hw0 : wfb a = true) (hw1 : wfb b = true)
    (hs : s = if d = 1 then ((H : Int) - height a) else ((height b : Int) - H))
    (hs1 : -1 ≤ s) (hs2 : s ≤ 1)
    (hshrink : height (if d = 1 then b else a) + 1 = H) :
    wfb (insFixup a b e s k d r).tree = true ∧
    (insFixup a b e s k d r).next = r.next ∧
    (1 + max (if d = 1 then height a else H) (if d = 1 then H else height b))
      = height (insFixup a b e s k d r).tree
        + (if (insFixup a b e s k d r).ret.isNone then 1 else 0) := by
  rcases hd with rfl | rfl
  · -- d = 0 : the left child shrank, i = 1
    norm_num at hs hshrink ⊢
    simp only [insFixup, hret, hnext, Option.isSome_none]
    norm_num
    have hcase : s = -1 ∨ s = 0 ∨ s = 1 := by omega
    rcases hcase with rfl | rfl | rfl
    · -- new state 0: no rotation, height shrank
      norm_num
      simp [balanceStep, wfb_node_iff, hw0, hw1, bal]
      omega
    · -- new state 1: no rotation, height unchanged
      norm_num
      simp [balanceStep, wfb_node_iff, hw0, hw1, bal]
      omega
    · -- new state 2: rotation
      norm_num
      have hrot := balanceStep_rot (e := e) (i := 1) hw0 hw1
        (s := 2) (by simp only [bal]; omega) (Or.inl rfl)
        ⟨fun _ => rfl, by omega⟩
      rcases hrot.2 with ⟨hst, hh⟩ | ⟨hst, hh⟩
      · simp [hrot.1, hst, hh]
        omega
      · simp [hrot.1, hst, hh]
        omega
  · -- d = 1 : the right child shrank, i = 0
    norm_num at hs hshrink ⊢
    simp only [insFixup, hret, hnext, Option.isSome_none]
    norm_num
    have hcase : s = -1 ∨ s = 0 ∨ s = 1 := by omega
    rcases hcase with rfl | rfl | rfl
    · -- new state -2: rotation
      norm_num
      have hrot := balanceStep_rot (e := e) (i := 0) hw0 hw1
        (s := -2) (by simp only [bal]; omega) (Or.inr rfl)
        ⟨by omega, fun _ => rfl⟩
      rcases hrot.2 with ⟨hst, hh⟩ | ⟨hst, hh⟩
      · simp [hrot.1, hst, hh]
        omega
      · simp [hrot.1, hst, hh]
        omega
    · -- new state -1: no rotation, height unchanged
      norm_num
      simp [balanceStep, wfb_node_iff, hw0, hw1, bal]
      omega
    · -- new state 0: no rotation, height shrank
      norm_num
      simp [balanceStep, wfb_node_iff, hw0, hw1, bal]
      omega


/-- Full behavioural specification of one av_tree_insert call on a
wellformed tree, covering both modes.  `ret == NULL` signals a height
change: growth for insertion (`nx` supplied and consumed), shrinkage for
deletion (`nx` initially NULL, vacated node handed back). -/
def InsSpec (t : AVTree α) (nx : Option (Option α)) (r : InsRes α) : Prop :=
  wfb r.tree = true ∧
  (nx.isSome = true →
     (r.next.isSome = true → r.tree = t ∧ r.ret.isSome = true) ∧
     (r.next = none →
        height r.tree = height t + (if r.ret.isNone then 1 else 0))) ∧
  (nx = none →
     (r.next.isSome = true →
        height t = height r.tree + (if r.ret.isNone then 1 else 0)) ∧
     (r.next = none → r.ret.isSome = true ∧ height r.tree = height t))

set_option maxHeartbeats 1000000 in
/-- Step lemma: a recursive call into `child[1]` satisfying `InsSpec`
followed by the fixup yields `InsSpec` for the parent node. -/
theorem insStep1_spec {c0 c1 : AVTree α} {e e2 : α} {s : Int} {key : α}
    {nx : Option (Option α)} {r : InsRes α}
    (hw0 : wfb c0 = true) (hw1 : wfb c1 = true)
    (hsb : s = bal c0 c1) (hb1 : -1 ≤ s) (hb2 : s ≤ 1)
    (he : nx.isSome = true → e2 = e)
    (hr : InsSpec c1 nx r) :
    InsSpec (.node c0 c1 e s) nx (insFixup c0 r.tree e2 s key 1 r) := by
  obtain ⟨hwfr, hins, hdel⟩ := hr
  cases hret : r.ret with
  | some x =>
      -- no rebalancing: the child's height is unchanged
      have hh : height r.tree = height c1 := by
        cases nx with
        | some n =>
            rcases hnn : r.next with _ | nn
            · have := (hins rfl).2 hnn
              simp [hret] at this
              omega
            · exact ((hins rfl).1 (by simp [hnn])).1 ▸ rfl
        | none =>
            rcases hnn : r.next with _ | nn
            · exact ((hdel rfl).2 hnn).2
            · have := (hdel rfl).1 (by simp [hnn])
              simp [hret] at this
              omega
      refine ⟨?_, ?_, ?_⟩
      · simp only [insFixup, hret, InsRes.tree]
        exact wfb_node_iff.mpr ⟨hw0, hwfr, by simp only [hsb, bal, hh], by omega, by omega⟩
      · intro hnx
        constructor
        · intro hn
          simp only [insFixup, hret, InsRes.next, InsRes.tree, InsRes.ret] at hn ⊢
          refine ⟨?_, by simp⟩
          have : r.tree = c1 := ((hins hnx).1 hn).1
          rw [this, he hnx]
        · intro hn
          simp only [insFixup, hret, InsRes.next, InsRes.tree, InsRes.ret] at hn ⊢
          simp [hh]
      · intro hnx
        constructor
        · intro hn
          simp only [insFixup, hret, InsRes.next, InsRes.tree, InsRes.ret] at hn ⊢
          simp [hh]
        · intro hn
          simp only [insFixup, hret, InsRes.next, InsRes.tree, InsRes.ret] at hn ⊢
          simp [hh]
  | none =>
      cases nx with
      | some n =>
          -- insertion mode: the node below was consumed and the child grew
          have hnn : r.next = none := by
            rcases hnn : r.next with _ | nn
            · rfl
            · have := ((hins rfl).1 (by simp [hnn])).2
              simp [hret] at this
          have hgrow := (hins rfl).2 hnn
          simp only [hret, Option.isNone_none, if_pos] at hgrow
          have hfix := insFixup_grow (a := c0) (b := r.tree) (e := e2)
            (s := s) (k := key) (d := 1) (r := r) (H := height c1)
            (Or.inr rfl) hret hnn hw0 hwfr
            (by norm_num; rw [hsb]; simp [bal]) (by omega) (by omega)
            (by norm_num; omega)
          norm_num at hfix
          refine ⟨hfix.1, ?_, ?_⟩
          · intro _
            constructor
            · intro hn
              rw [hfix.2.1] at hn
              simp at hn
            · intro _
              simp only [height_node, hfix.2.2]
              try omega
          · intro hnx
            simp at hnx
      | none =>
          -- delete mode: a node was vacated below and the child shrank
          have hnn : r.next.isSome = true := by
            rcases hnn : r.next with _ | nn
            · have := ((hdel rfl).2 hnn).1
              simp [hret] at this
            · simp
          have hshrink := (hdel rfl).1 hnn
          simp only [hret, Option.isNone_none, if_pos] at hshrink
          have hfix := insFixup_shrink (a := c0) (b := r.tree) (e := e2)
            (s := s) (k := key) (d := 1) (r := r) (H := height c1)
            (Or.inr rfl) hret hnn hw0 hwfr
            (by norm_num; rw [hsb]; simp [bal]) (by omega) (by omega)
            (by norm_num; omega)
          norm_num at hfix
          refine ⟨hfix.1, ?_, ?_⟩
          · intro hnx
            simp at hnx
          · intro _
            constructor
            · intro _
              simp only [height_node]
              omega
            · intro hn
              rw [hfix.2.1] at hn
              rw [hn] at hnn
              simp at hnn


set_option maxHeartbeats 1000000 in
/-- Step lemma: a recursive call into `child[0]` satisfying `InsSpec`
followed by the fixup yields `InsSpec` for the parent node. -/
theorem insStep0_spec {c0 c1 : AVTree α} {e e2 : α} {s : Int} {key : α}
    {nx : Option (Option α)} {r : InsRes α}
    (hw0 : wfb c0 = true) (hw1 : wfb c1 = true)
    (hsb : s = bal c0 c1) (hb1 : -1 ≤ s) (hb2 : s ≤ 1)
    (he : nx.isSome = true → e2 = e)
    (hr : InsSpec c0 nx r) :
    InsSpec (.node c0 c1 e s) nx (insFixup r.tree c1 e2 s key 0 r) := by
  obtain ⟨hwfr, hins, hdel⟩ := hr
  cases hret : r.ret with
  | some x =>
      -- no rebalancing: the child's height is unchanged
      have hh : height r.tree = height c0 := by
        cases nx with
        | some n =>
            rcases hnn : r.next with _ | nn
            · have := (hins rfl).2 hnn
              simp [hret] at this
              omega
            · exact ((hins rfl).1 (by simp [hnn])).1 ▸ rfl
        | none =>
            rcases hnn : r.next with _ | nn
            · exact ((hdel rfl).2 hnn).2
            · have := (hdel rfl).1 (by simp [hnn])
              simp [hret] at this
              omega
      refine ⟨?_, ?_, ?_⟩
      · simp only [insFixup, hret, InsRes.tree]
        exact wfb_node_iff.mpr ⟨hwfr, hw1, by simp only [hsb, bal, hh], by omega, by omega⟩
      · intro hnx
        constructor
        · intro hn
          simp only [insFixup, hret, InsRes.next, InsRes.tree, InsRes.ret] at hn ⊢
          refine ⟨?_, by simp⟩
          have : r.tree = c0 := ((hins hnx).1 hn).1
          rw [this, he hnx]
        · intro hn
          simp only [insFixup, hret, InsRes.next, InsRes.tree, InsRes.ret] at hn ⊢
          simp [hh]
      · intro hnx
        constructor
        · intro hn
          simp only [insFixup, hret, InsRes.next, InsRes.tree, InsRes.ret] at hn ⊢
          simp [hh]
        · intro hn
          simp only [insFixup, hret, InsRes.next, InsRes.tree, InsRes.ret] at hn ⊢
          simp [hh]
  | none =>
      cases nx with
      | some n =>
          -- insertion mode: the node below was consumed and the child grew
          have hnn : r.next = none := by
            rcases hnn : r.next with _ | nn
            · rfl
            · have := ((hins rfl).1 (by simp [hnn])).2
              simp [hret] at this
          have hgrow := (hins rfl).2 hnn
          simp only [hret, Option.isNone_none, if_pos] at hgrow
          have hfix := insFixup_grow (a := r.tree) (b := c1) (e := e2)
            (s := s) (k := key) (d := 0) (r := r) (H := height c0)
            (Or.inl rfl) hret hnn hwfr hw1
            (by norm_num; rw [hsb]; simp [bal]) (by omega) (by omega)
            (by norm_num; omega)
          norm_num at hfix
          refine ⟨hfix.1, ?_, ?_⟩
          · intro _
            constructor
            · intro hn
              rw [hfix.2.1] at hn
              simp at hn
            · intro _
              simp only [height_node, hfix.2.2]
              try omega
          · intro hnx
            simp at hnx
      | none =>
          -- delete mode: a node was vacated below and the child shrank
          have hnn : r.next.isSome = true := by
            rcases hnn : r.next with _ | nn
            · have := ((hdel rfl).2 hnn).1
              simp [hret] at this
            · simp
          have hshrink := (hdel rfl).1 hnn
          simp only [hret, Option.isNone_none, if_pos] at hshrink
          have hfix := insFixup_shrink (a := r.tree) (b := c1) (e := e2)
            (s := s) (k := key) (d := 0) (r := r) (H := height c0)
            (Or.inl rfl) hret hnn hwfr hw1
            (by norm_num; rw [hsb]; simp [bal]) (by omega) (by omega)
            (by norm_num; omega)
          norm_num at hfix
          refine ⟨hfix.1, ?_, ?_⟩
          · intro hnx
            simp at hnx
          · intro _
            constructor
            · intro _
              simp only [height_node]
              omega
            · intro hn
              rw [hfix.2.1] at hn
              rw [hn] at hnn
              simp at hnn


/-- Characterisation of `isNil`. -/
theorem isNil_iff {t : AVTree α} : isNil t = true ↔ t = .nil := by
  cases t <;> simp [isNil]

set_option maxHeartbeats 1600000 in
/-- Main av_tree_insert theorem: on a wellformed tree, both the insertion
mode and the deletion mode of av_tree_insert preserve wellformedness and
obey the height-change signalling protocol. -/
theorem avTreeInsert_spec (cmp : α → α → Int) :
    ∀ (t : AVTree α) (key : α) (nx : Option (Option α)), wfb t = true →
      InsSpec t nx (avTreeInsert cmp t key nx)
  | .nil, key, nx, _ => by
      cases nx with
      | some n =>
          simp [avTreeInsert, InsSpec, wfb, bal]
      | none =>
          simp [avTreeInsert, InsSpec]
  | .node c0 c1 e s, key, nx, hw => by
      obtain ⟨hw0, hw1, hsb, hb1, hb2⟩ := wfb_node_iff.mp hw
      simp only [avTreeInsert]
      by_cases hdup : cmp e key = 0 ∧ nx.isSome = true
      · rw [if_pos (by exact_mod_cast hdup)]
        refine ⟨hw, fun _ => ⟨fun _ => ⟨rfl, by simp⟩, fun hn => ?_⟩, fun hnx => ?_⟩
        · simp only [InsRes.next] at hn
          rw [hn] at hdup
          simp at hdup
        · rw [hnx] at hdup
          simp at hdup
      · rw [if_neg (by exact_mod_cast hdup)]
        by_cases hvac : cmp e key = 0 ∧ isNil c0 = true ∧ isNil c1 = true
        · rw [if_pos (by exact_mod_cast hvac)]
          have hnx : nx = none := by
            cases nx with
            | none => rfl
            | some n => exact absurd ⟨hvac.1, rfl⟩ hdup
          obtain ⟨-, h0, h1⟩ := hvac
          rw [isNil_iff.mp h0, isNil_iff.mp h1]
          subst hnx
          simp [InsSpec]
        · rw [if_neg (by exact_mod_cast hvac)]
          by_cases hv : cmp e key = 0
          · -- delete continues through this node after replacing its elem
            have hnx : nx = none := by
              cases nx with
              | none => rfl
              | some n => exact absurd ⟨hv, rfl⟩ hdup
            subst hnx
            rw [if_pos hv]
            by_cases h0 : isNil c0 = true
            · have h1 : isNil c1 = false := by
                cases hc : isNil c1
                · rfl
                · exact absurd ⟨hv, h0, hc⟩ hvac
              rw [if_pos h0]
              norm_num
              exact insStep1_spec hw0 hw1 hsb hb1 hb2 (by simp)
                (avTreeInsert_spec cmp c1 _ none hw1)
            · rw [if_neg h0]
              norm_num
              exact insStep0_spec hw0 hw1 hsb hb1 hb2 (by simp)
                (avTreeInsert_spec cmp c0 _ none hw0)
          · rw [if_neg hv]
            by_cases hlt : cmp e key < 0
            · have : sgnBit (cmp e key) = 1 := by simp [sgnBit, hlt]
              rw [this]
              norm_num
              rw [if_neg hv]
              exact insStep1_spec hw0 hw1 hsb hb1 hb2 (fun _ => rfl)
                (avTreeInsert_spec cmp c1 _ nx hw1)
            · have : sgnBit (cmp e key) = 0 := by simp [sgnBit, hlt]
              rw [this]
              norm_num
              rw [if_neg hv]
              exact insStep0_spec hw0 hw1 hsb hb1 hb2 (fun _ => rfl)
                (avTreeInsert_spec cmp c0 _ nx hw0)


/-- Phase of a comparison result along an in-order traversal: keys greater
than the element first (0), then equal (1), then smaller (2). -/
def phase (v : Int) : Nat := if 0 < v then 0 else if v = 0 then 1 else 2

/-- The signs of `g` over `l` are positive, then zero, then negative: the
shape the refinement contract guarantees for a search comparator over the
tree's in-order element sequence. -/
def SignSorted (g : α → Int) (l : List α) : Prop :=
  l.Pairwise (fun a b => phase (g a) ≤ phase (g b))

/-- The last element the key compares greater than (in-order predecessor of
the equal range). -/
def lastPos (g : α → Int) (l : List α) : Option α :=
  (l.filter (fun e => decide (0 < g e))).getLast?

/-- The first element the key compares smaller than (in-order successor of
the equal range). -/
def firstNeg (g : α → Int) (l : List α) : Option α :=
  (l.filter (fun e => decide (g e < 0))).head?

/-- The elements the key compares equal to, in order. -/
def zeros (g : α → Int) (l : List α) : List α :=
  l.filter (fun e => decide (g e = 0))

theorem or_assoc_opt (a b c : Option α) :
    Option.or (Option.or a b) c = Option.or a (Option.or b c) := by
  cases a <;> simp [Option.or]

theorem getLast?_append_or (a b : List α) :
    (a ++ b).getLast? = Option.or b.getLast? a.getLast? := by
  rcases List.eq_nil_or_concat b with rfl | ⟨ys, y, rfl⟩
  · simp [Option.or]
  · rw [List.concat_eq_append, ← List.append_assoc]
    simp [Option.or, List.getLast?_concat]

theorem head?_append_or (a b : List α) :
    (a ++ b).head? = Option.or a.head? b.head? := by
  cases a <;> simp [Option.or]

theorem phase_eq_zero_iff {v : Int} : phase v = 0 ↔ 0 < v := by
  simp only [phase]
  split
  · simp
    omega
  · split <;> simp <;> omega

theorem phase_eq_one_iff {v : Int} : phase v = 1 ↔ v = 0 := by
  simp only [phase]
  split
  · simp
    omega
  · split <;> simp <;> omega

theorem phase_le_one_iff {v : Int} : phase v ≤ 1 ↔ 0 ≤ v := by
  simp only [phase]
  split
  · simp
    omega
  · split <;> simp <;> omega

theorem one_le_phase_iff {v : Int} : 1 ≤ phase v ↔ v ≤ 0 := by
  simp only [phase]
  split
  · simp
    omega
  · split <;> simp <;> omega

theorem getLast?_cons_or (x : α) (l : List α) :
    (x :: l).getLast? = Option.or l.getLast? (some x) := by
  have h := getLast?_append_or [x] l
  simpa using h

set_option maxHeartbeats 1000000 in
/-- Specification of tree_find_next with `direction = 0` on a subtree that
contains no elements the key compares smaller than: it records the in-order
predecessor into `next[0]` and (for `nextlen >= 4`) the leftmost equal
element into `next[2]`. -/
theorem treeFindNext_spec0 (cmp : κ → α → Int) (key : κ) (nextlen : Nat) :
    ∀ (u : AVTree α) (nx : Next4 α),
      SignSorted (fun e => cmp key e) (inorder u) →
      (∀ x ∈ inorder u, phase (cmp key x) ≤ 1) →
      treeFindNext cmp key nextlen 0 u nx =
        { n0 := Option.or (lastPos (fun e => cmp key e) (inorder u)) nx.n0,
          n1 := nx.n1,
          n2 := if 4 ≤ nextlen then
                  Option.or ((zeros (fun e => cmp key e) (inorder u)).head?) nx.n2
                else nx.n2,
          n3 := nx.n3 }
  | .nil, nx, _, _ => by
      simp [treeFindNext, lastPos, zeros, inorder, Option.or]
  | .node c0 c1 e s, nx, hs, hph => by
      simp only [inorder, SignSorted] at hs
      have hparts := List.pairwise_append.mp hs
      have hcons := List.pairwise_cons.mp hparts.2.1
      have hphe : phase (cmp key e) ≤ 1 := hph e (by simp [inorder])
      by_cases hpos : 0 < cmp key e
      · -- positive node: record it in next[0], continue right
        have hnz : cmp key e ≠ 0 := by omega
        have hc0pos : ∀ x ∈ inorder c0, 0 < cmp key x := by
          intro x hx
          have hle := hparts.2.2 x hx e (by simp)
          rw [phase_eq_zero_iff.mpr hpos] at hle
          exact phase_eq_zero_iff.mp (by omega)
        have ih := treeFindNext_spec0 cmp key nextlen c1 (setN nx 0 e)
          hcons.2 (fun x hx => hph x (by simp [inorder, hx]))
        rw [treeFindNext]
        simp only []
        rw [if_pos hnz, if_neg (by norm_num), ih]
        have hfz : List.filter (fun x => decide (cmp key x = 0)) (inorder c0) = [] := by
          rw [List.filter_eq_nil_iff]
          intro x hx
          have := hc0pos x hx
          simp
          omega
        have hfn : List.filter (fun x => decide (0 < cmp key x)) (inorder c0)
            = inorder c0 := by
          rw [List.filter_eq_self]
          intro x hx
          simp [hc0pos x hx]
        simp only [Option.some.injEq, Next4.mk.injEq]
        refine ⟨?_, ?_, ?_, ?_⟩
        · -- next[0]
          simp only [lastPos, inorder, List.filter_append, List.filter_cons]
          simp only [hpos, decide_True, if_pos]
          rw [getLast?_append_or, getLast?_cons_or, or_assoc_opt, or_assoc_opt]
          simp [setN]
        · simp [setN]
        · -- next[2]
          simp only [setN]
          norm_num
          simp only [zeros, inorder, List.filter_append, List.filter_cons]
          simp only [hnz, decide_False]
          rw [hfz]
          simp
        · simp [setN]
      · -- equal node: record it in next[2] if requested, continue left
        have hz : cmp key e = 0 := by
          rw [phase_le_one_iff] at hphe
          omega
        have hc1nopos : ∀ x ∈ inorder c1, ¬(0 < cmp key x) := by
          intro x hx
          intro hc
          have h1 := hcons.1 x hx
          have h2 := phase_eq_zero_iff.mpr hc
          have h3 := phase_eq_one_iff.mpr hz
          omega
        have ih := treeFindNext_spec0 cmp key nextlen c0
          (if 4 ≤ nextlen then setN nx 2 e else nx)
          hparts.1 (fun x hx => hph x (by simp [inorder, hx]))
        rw [treeFindNext]
        simp only []
        rw [if_neg (by simp [hz]), if_neg (by norm_num), ih]
        have hposc1 : List.filter (fun x => decide (0 < cmp key x)) (inorder c1) = [] := by
          rw [List.filter_eq_nil_iff]
          intro x hx
          simp [hc1nopos x hx]
        have hfe : List.filter (fun x => decide (0 < cmp key x))
              (inorder (AVTree.node c0 c1 e s))
            = List.filter (fun x => decide (0 < cmp key x)) (inorder c0) := by
          simp only [inorder, List.filter_append, List.filter_cons, hposc1]
          simp [hz]
        have hze : List.filter (fun x => decide (cmp key x = 0))
              (inorder (AVTree.node c0 c1 e s))
            = List.filter (fun x => decide (cmp key x = 0)) (inorder c0)
              ++ e :: List.filter (fun x => decide (cmp key x = 0)) (inorder c1) := by
          simp [inorder, List.filter_append, List.filter_cons, hz]
        simp only [Option.some.injEq, Next4.mk.injEq]
        refine ⟨?_, ?_, ?_, ?_⟩
        · -- next[0]
          simp only [lastPos, zeros, hfe]
          split <;> simp [setN]
        · split <;> simp [setN]
        · -- next[2]
          by_cases hlen : 4 ≤ nextlen
          · simp only [hlen, ite_true, zeros, hze, head?_append_or, List.head?_cons, setN]
            norm_num
            rw [or_assoc_opt]
            simp [Option.or]
          · simp only [hlen, ite_false]
        · split <;> simp [setN]


set_option maxHeartbeats 1000000 in
/-- Specification of tree_find_next with `direction = 1` on a subtree that
contains no elements the key compares greater than: it records the in-order
successor into `next[1]` and (for `nextlen >= 4`) the rightmost equal
element into `next[3]`. -/
theorem treeFindNext_spec1 (cmp : κ → α → Int) (key : κ) (nextlen : Nat) :
    ∀ (u : AVTree α) (nx : Next4 α),
      SignSorted (fun e => cmp key e) (inorder u) →
      (∀ x ∈ inorder u, 1 ≤ phase (cmp key x)) →
      treeFindNext cmp key nextlen 1 u nx =
        { n0 := nx.n0,
          n1 := Option.or (firstNeg (fun e => cmp key e) (inorder u)) nx.n1,
          n2 := nx.n2,
          n3 := if 4 ≤ nextlen then
                  Option.or ((zeros (fun e => cmp key e) (inorder u)).getLast?) nx.n3
                else nx.n3 }
  | .nil, nx, _, _ => by
      simp [treeFindNext, firstNeg, zeros, inorder, Option.or]
  | .node c0 c1 e s, nx, hs, hph => by
      simp only [inorder, SignSorted] at hs
      have hparts := List.pairwise_append.mp hs
      have hcons := List.pairwise_cons.mp hparts.2.1
      have hphe : 1 ≤ phase (cmp key e) := hph e (by simp [inorder])
      by_cases hneg : cmp key e < 0
      · -- negative node: record it in next[1], continue left
        have hnz : cmp key e ≠ 0 := by omega
        have hc1neg : ∀ x ∈ inorder c1, cmp key x < 0 := by
          intro x hx
          have hle := hcons.1 x hx
          by_contra hcon
          have h2 : 0 ≤ cmp key x := by omega
          have h3 := phase_le_one_iff.mpr h2
          have h4 : ¬0 < cmp key e := by omega
          have h5 : phase (cmp key e) = 2 := by
            simp only [phase, if_neg h4, if_neg hnz]
          omega
        have ih := treeFindNext_spec1 cmp key nextlen c0 (setN nx 1 e)
          hparts.1 (fun x hx => hph x (by simp [inorder, hx]))
        rw [treeFindNext]
        simp only []
        rw [if_pos hnz]
        norm_num
        rw [ih]
        have hfz1 : List.filter (fun x => decide (cmp key x = 0)) (inorder c1) = [] := by
          rw [List.filter_eq_nil_iff]
          intro x hx
          have := hc1neg x hx
          simp
          omega
        have hn1 : List.filter (fun x => decide (cmp key x < 0)) (inorder c1)
            = inorder c1 := by
          rw [List.filter_eq_self]
          intro x hx
          simp [hc1neg x hx]
        have hff : List.filter (fun x => decide (cmp key x < 0))
              (inorder (AVTree.node c0 c1 e s))
            = List.filter (fun x => decide (cmp key x < 0)) (inorder c0)
              ++ e :: List.filter (fun x => decide (cmp key x < 0)) (inorder c1) := by
          simp [inorder, List.filter_append, List.filter_cons, hneg]
        have hzf : List.filter (fun x => decide (cmp key x = 0))
              (inorder (AVTree.node c0 c1 e s))
            = List.filter (fun x => decide (cmp key x = 0)) (inorder c0) := by
          simp only [inorder, List.filter_append, List.filter_cons, hfz1]
          simp [hnz]
        simp only [Option.some.injEq, Next4.mk.injEq]
        refine ⟨?_, ?_, ?_, ?_⟩
        · simp [setN]
        · -- next[1]
          simp only [firstNeg, hff, head?_append_or, List.head?_cons]
          rw [or_assoc_opt]
          simp [setN, Option.or]
        · simp [setN]
        · -- next[3]
          simp only [zeros, hzf]
          split <;> simp [setN]
      · -- equal node: record it in next[3] if requested, continue right
        have hz : cmp key e = 0 := by
          rw [one_le_phase_iff] at hphe
          omega
        have hc0zero : ∀ x ∈ inorder c0, cmp key x = 0 := by
          intro x hx
          have h1 := hparts.2.2 x hx e (by simp)
          have h2 := hph x (by simp [inorder, hx])
          have h3 := phase_eq_one_iff.mpr hz
          rw [← phase_eq_one_iff]
          omega
        have ih := treeFindNext_spec1 cmp key nextlen c1
          (if 4 ≤ nextlen then setN nx 3 e else nx)
          hcons.2 (fun x hx => hph x (by simp [inorder, hx]))
        rw [treeFindNext]
        simp only []
        rw [if_neg (by simp [hz])]
        norm_num
        rw [ih]
        have hnegc0 : List.filter (fun x => decide (cmp key x < 0)) (inorder c0) = [] := by
          rw [List.filter_eq_nil_iff]
          intro x hx
          have := hc0zero x hx
          simp
          omega
        have hzc0 : List.filter (fun x => decide (cmp key x = 0)) (inorder c0)
            = inorder c0 := by
          rw [List.filter_eq_self]
          intro x hx
          simp [hc0zero x hx]
        have hff : List.filter (fun x => decide (cmp key x < 0))
              (inorder (AVTree.node c0 c1 e s))
            = List.filter (fun x => decide (cmp key x < 0)) (inorder c1) := by
          simp only [inorder, List.filter_append, List.filter_cons, hnegc0]
          simp [hz]
        have hzf : List.filter (fun x => decide (cmp key x = 0))
              (inorder (AVTree.node c0 c1 e s))
            = List.filter (fun x => decide (cmp key x = 0)) (inorder c0)
              ++ e :: List.filter (fun x => decide (cmp key x = 0)) (inorder c1) := by
          simp [inorder, List.filter_append, List.filter_cons, hz]
        simp only [Option.some.injEq, Next4.mk.injEq]
        refine ⟨?_, ?_, ?_, ?_⟩
        · split <;> simp [setN]
        · -- next[1]
          simp only [firstNeg, hff]
          split <;> simp [setN]
        · split <;> simp [setN]
        · -- next[3]
          by_cases hlen : 4 ≤ nextlen
          · simp only [hlen, ite_true, zeros, hzf, getLast?_append_or, getLast?_cons_or, setN]
            norm_num
            rw [or_assoc_opt, or_assoc_opt]
            simp [Option.or]
          · simp only [hlen, ite_false]


set_option maxHeartbeats 1600000 in
/-- Full specification of av_tree_find2 with a non-NULL `next` array whose
slots 2 and 3 start NULL (as in every caller), over a sign-sorted element
sequence: `next[0]`/`next[1]` receive the nearest strictly-smaller and
strictly-greater elements, the return value is an equal element exactly
when one exists, and with `nextlen >= 4` the leftmost/rightmost equal
elements reachable from the match's subtrees land in `next[2]`/`next[3]`
(NULL when the match itself is the edge of the equal range). -/
theorem avTreeFind2_spec (cmp : κ → α → Int) (key : κ) (nextlen : Nat) :
    ∀ (t : AVTree α) (n : Next4 α),
      SignSorted (fun e => cmp key e) (inorder t) →
      n.n2 = none → n.n3 = none →
      (zeros (fun e => cmp key e) (inorder t) = [] →
         (avTreeFind2 cmp key nextlen t (some n)).1 = none ∧
         (avTreeFind2 cmp key nextlen t (some n)).2 =
           some { n0 := Option.or (lastPos (fun e => cmp key e) (inorder t)) n.n0,
                  n1 := Option.or (firstNeg (fun e => cmp key e) (inorder t)) n.n1,
                  n2 := none, n3 := none }) ∧
      (zeros (fun e => cmp key e) (inorder t) ≠ [] →
         ∃ m z2 z3,
           (avTreeFind2 cmp key nextlen t (some n)).1 = some m ∧
           m ∈ zeros (fun e => cmp key e) (inorder t) ∧
           (avTreeFind2 cmp key nextlen t (some n)).2 =
             some { n0 := Option.or (lastPos (fun e => cmp key e) (inorder t)) n.n0,
                    n1 := Option.or (firstNeg (fun e => cmp key e) (inorder t)) n.n1,
                    n2 := z2, n3 := z3 } ∧
           (4 ≤ nextlen →
              Option.or z2 (some m) = (zeros (fun e => cmp key e) (inorder t)).head? ∧
              Option.or z3 (some m) = (zeros (fun e => cmp key e) (inorder t)).getLast?) ∧
           (¬ 4 ≤ nextlen → z2 = none ∧ z3 = none))
  | .nil, ⟨a0, a1, a2, a3⟩, _, h2, h3 => by
      simp at h2 h3
      subst h2
      subst h3
      constructor
      · intro _
        refine ⟨rfl, ?_⟩
        rw [avTreeFind2]
        simp [lastPos, firstNeg, inorder, Option.or]
      · intro hz
        exact absurd rfl hz
  | .node c0 c1 e s, n, hs, h2, h3 => by
      simp only [inorder, SignSorted] at hs
      have hparts := List.pairwise_append.mp hs
      have hcons := List.pairwise_cons.mp hparts.2.1
      rcases lt_trichotomy (cmp key e) 0 with hneg | hzv | hpos
      · -- key is smaller: record e as next[1], descend into child[0]
        have hnz : cmp key e ≠ 0 := by omega
        have hc1neg : ∀ x ∈ inorder c1, cmp key x < 0 := by
          intro x hx
          have hle := hcons.1 x hx
          have h5 : phase (cmp key e) = 2 := by
            simp only [phase, if_neg (by omega : ¬0 < cmp key e), if_neg hnz]
          by_contra hcon
          have h3' := phase_le_one_iff.mpr (by omega : (0:Int) ≤ cmp key x)
          omega
        have ih := avTreeFind2_spec cmp key nextlen c0 (setN n 1 e)
          hparts.1 (by simp [setN, h2]) (by simp [setN, h3])
        rw [avTreeFind2]
        simp only []
        rw [if_pos hnz]
        have hsb : sgnBit (cmp key e) = 1 := by simp [sgnBit, hneg]
        rw [hsb]
        norm_num
        have hff : List.filter (fun x => decide (cmp key x < 0))
              (inorder (AVTree.node c0 c1 e s))
            = List.filter (fun x => decide (cmp key x < 0)) (inorder c0)
              ++ e :: List.filter (fun x => decide (cmp key x < 0)) (inorder c1) := by
          simp [inorder, List.filter_append, List.filter_cons, hneg]
        have hpf : List.filter (fun x => decide (0 < cmp key x))
              (inorder (AVTree.node c0 c1 e s))
            = List.filter (fun x => decide (0 < cmp key x)) (inorder c0) := by
          simp only [inorder, List.filter_append, List.filter_cons]
          have : List.filter (fun x => decide (0 < cmp key x)) (inorder c1) = [] := by
            rw [List.filter_eq_nil_iff]
            intro x hx
            have := hc1neg x hx
            simp
            omega
          rw [this]
          simp [show ¬0 < cmp key e by omega]
        have hzf : zeros (fun x => cmp key x) (inorder (AVTree.node c0 c1 e s))
            = zeros (fun x => cmp key x) (inorder c0) := by
          simp only [zeros, inorder, List.filter_append, List.filter_cons]
          have : List.filter (fun x => decide (cmp key x = 0)) (inorder c1) = [] := by
            rw [List.filter_eq_nil_iff]
            intro x hx
            have := hc1neg x hx
            simp
            omega
          rw [this]
          simp [hnz]
        rw [hzf]
        constructor
        · intro hz
          obtain ⟨hres, hrec⟩ := ih.1 hz
          refine ⟨hres, ?_⟩
          rw [hrec]
          simp only [Option.some.injEq, Next4.mk.injEq]
          refine ⟨?_, ?_, trivial, trivial⟩
          · simp only [lastPos, hpf]
            simp [setN]
          · simp only [firstNeg, hff, head?_append_or, List.head?_cons]
            rw [or_assoc_opt]
            simp [setN, Option.or]
        · intro hz
          obtain ⟨m, z2, z3, hres, hmem, hrec, h4, h5⟩ := ih.2 hz
          refine ⟨m, hres, hmem, z2, z3, ?_, h4, fun _ => h5 (by omega)⟩
          rw [hrec]
          simp only [Option.some.injEq, Next4.mk.injEq]
          refine ⟨?_, ?_, trivial, trivial⟩
          · simp only [lastPos, hpf]
            simp [setN]
          · simp only [firstNeg, hff, head?_append_or, List.head?_cons]
            rw [or_assoc_opt]
            simp [setN, Option.or]
      · -- match at this node
        have hc0le : ∀ x ∈ inorder c0, phase (cmp key x) ≤ 1 := by
          intro x hx
          have h1 := hparts.2.2 x hx e (by simp)
          have h3' := phase_eq_one_iff.mpr hzv
          omega
        have hc1ge : ∀ x ∈ inorder c1, 1 ≤ phase (cmp key x) := by
          intro x hx
          have h1 := hcons.1 x hx
          have h3' := phase_eq_one_iff.mpr hzv
          omega
        have hf0 := treeFindNext_spec0 cmp key nextlen c0 n hparts.1 hc0le
        have hf1 := treeFindNext_spec1 cmp key nextlen c1
          { n0 := Option.or (lastPos (fun x => cmp key x) (inorder c0)) n.n0,
            n1 := n.n1,
            n2 := if 4 ≤ nextlen then
                    Option.or ((zeros (fun x => cmp key x) (inorder c0)).head?) n.n2
                  else n.n2,
            n3 := n.n3 }
          hcons.2 hc1ge
        have hzf : zeros (fun x => cmp key x) (inorder (AVTree.node c0 c1 e s))
            = zeros (fun x => cmp key x) (inorder c0)
              ++ e :: zeros (fun x => cmp key x) (inorder c1) := by
          simp [zeros, inorder, List.filter_append, List.filter_cons, hzv]
        have hpf : List.filter (fun x => decide (0 < cmp key x))
              (inorder (AVTree.node c0 c1 e s))
            = List.filter (fun x => decide (0 < cmp key x)) (inorder c0) := by
          simp only [inorder, List.filter_append, List.filter_cons]
          have : List.filter (fun x => decide (0 < cmp key x)) (inorder c1) = [] := by
            rw [List.filter_eq_nil_iff]
            intro x hx
            have := hc1ge x hx
            rw [one_le_phase_iff] at this
            simp
            omega
          rw [this]
          simp [hzv]
        have hff : List.filter (fun x => decide (cmp key x < 0))
              (inorder (AVTree.node c0 c1 e s))
            = List.filter (fun x => decide (cmp key x < 0)) (inorder c1) := by
          simp only [inorder, List.filter_append, List.filter_cons]
          have : List.filter (fun x => decide (cmp key x < 0)) (inorder c0) = [] := by
            rw [List.filter_eq_nil_iff]
            intro x hx
            have := hc0le x hx
            rw [phase_le_one_iff] at this
            simp
            omega
          rw [this]
          simp [hzv]
        constructor
        · intro hz
          rw [hzf] at hz
          simp at hz
        · intro _
          rw [avTreeFind2]
          simp only []
          rw [if_neg (by simp [hzv])]
          rw [hf0, hf1]
          refine ⟨e,
            (if 4 ≤ nextlen then
               Option.or ((zeros (fun x => cmp key x) (inorder c0)).head?) n.n2
             else n.n2),
            (if 4 ≤ nextlen then
               Option.or ((zeros (fun x => cmp key x) (inorder c1)).getLast?) n.n3
             else n.n3),
            rfl, by rw [hzf]; simp, ?_, ?_, ?_⟩
          · simp only [Option.some.injEq, Next4.mk.injEq]
            refine ⟨?_, ?_, trivial, trivial⟩
            · simp only [lastPos, hpf]
            · simp only [firstNeg, hff]
          · intro hlen
            rw [hzf]
            constructor
            · simp only [hlen, ite_true, h2]
              rw [head?_append_or, List.head?_cons]
              cases hzc : (zeros (fun x => cmp key x) (inorder c0)).head? <;>
                simp [Option.or]
            · simp only [hlen, ite_true, h3]
              rw [getLast?_append_or, getLast?_cons_or]
              rw [or_assoc_opt]
              cases hzc : (zeros (fun x => cmp key x) (inorder c1)).getLast? <;>
                simp [Option.or]
          · intro hlen
            simp only [hlen, ite_false]
            exact ⟨h2, h3⟩
      · -- key is greater: record e as next[0], descend into child[1]
        have hnz : cmp key e ≠ 0 := by omega
        have hc0pos : ∀ x ∈ inorder c0, 0 < cmp key x := by
          intro x hx
          have hle := hparts.2.2 x hx e (by simp)
          rw [phase_eq_zero_iff.mpr hpos] at hle
          exact phase_eq_zero_iff.mp (by omega)
        have ih := avTreeFind2_spec cmp key nextlen c1 (setN n 0 e)
          hcons.2 (by simp [setN, h2]) (by simp [setN, h3])
        rw [avTreeFind2]
        simp only []
        rw [if_pos hnz]
        have hsb : sgnBit (cmp key e) = 0 := by simp [sgnBit]; omega
        rw [hsb]
        norm_num
        have hpf : List.filter (fun x => decide (0 < cmp key x))
              (inorder (AVTree.node c0 c1 e s))
            = List.filter (fun x => decide (0 < cmp key x)) (inorder c0)
              ++ e :: List.filter (fun x => decide (0 < cmp key x)) (inorder c1) := by
          simp [inorder, List.filter_append, List.filter_cons, hpos]
        have hff : List.filter (fun x => decide (cmp key x < 0))
              (inorder (AVTree.node c0 c1 e s))
            = List.filter (fun x => decide (cmp key x < 0)) (inorder c1) := by
          simp only [inorder, List.filter_append, List.filter_cons]
          have : List.filter (fun x => decide (cmp key x < 0)) (inorder c0) = [] := by
            rw [List.filter_eq_nil_iff]
            intro x hx
            have := hc0pos x hx
            simp
            omega
          rw [this]
          simp [show ¬cmp key e < 0 by omega]
        have hzf : zeros (fun x => cmp key x) (inorder (AVTree.node c0 c1 e s))
            = zeros (fun x => cmp key x) (inorder c1) := by
          simp only [zeros, inorder, List.filter_append, List.filter_cons]
          have : List.filter (fun x => decide (cmp key x = 0)) (inorder c0) = [] := by
            rw [List.filter_eq_nil_iff]
            intro x hx
            have := hc0pos x hx
            simp
            omega
          rw [this]
          simp [hnz]
        rw [hzf]
        constructor
        · intro hz
          obtain ⟨hres, hrec⟩ := ih.1 hz
          refine ⟨hres, ?_⟩
          rw [hrec]
          simp only [Option.some.injEq, Next4.mk.injEq]
          refine ⟨?_, ?_, trivial, trivial⟩
          · simp only [lastPos, hpf, getLast?_append_or, getLast?_cons_or]
            rw [or_assoc_opt, or_assoc_opt]
            simp [setN]
          · simp only [firstNeg, hff]
            simp [setN]
        · intro hz
          obtain ⟨m, z2, z3, hres, hmem, hrec, h4, h5⟩ := ih.2 hz
          refine ⟨m, hres, hmem, z2, z3, ?_, h4, fun _ => h5 (by omega)⟩
          rw [hrec]
          simp only [Option.some.injEq, Next4.mk.injEq]
          refine ⟨?_, ?_, trivial, trivial⟩
          · simp only [lastPos, hpf, getLast?_append_or, getLast?_cons_or]
            rw [or_assoc_opt, or_assoc_opt]
            simp [setN]
          · simp only [firstNeg, hff]
            simp [setN]


end AVTreeModel

namespace AVMapModel

open AVTreeModel

/-- C strcmp over byte lists.  The stored strings carry their NUL
terminators inside the list (lengths in the map tests include the NUL);
running off the end of a list is treated as reading a NUL. -/
def cstrcmp : List Nat → List Nat → Int
  | x :: xs, y :: ys =>
      if x ≠ y then (x : Int) - (y : Int)
      else if x = 0 then 0 else cstrcmp xs ys
  | x :: _, [] => if x = 0 then 0 else (x : Int)
  | [], y :: _ => if y = 0 then 0 else -(y : Int)
  | [], [] => 0

/-- Modelled from the spec: case-insensitive ASCII ordering, the
av_strcasecmp of libavutil/avstring.c, which is not among the sources
here; the spec's comparator family names it as the case-insensitive key
ordering.  ASCII upper-case letters are folded to lower case and the
fold of the first differing byte decides. -/
def avToLower (c : Nat) : Nat := if 65 ≤ c ∧ c ≤ 90 then c + 32 else c

/-- Modelled from the spec: av_strcasecmp over byte lists (see avToLower). -/
def avStrcasecmp : List Nat → List Nat → Int
  | x :: xs, y :: ys =>
      if avToLower x ≠ avToLower y then (avToLower x : Int) - (avToLower y : Int)
      else if x = 0 then 0 else avStrcasecmp xs ys
  | x :: _, [] => if x = 0 then 0 else (avToLower x : Int)
  | [], y :: _ => if y = 0 then 0 else -(avToLower y : Int)
  | [], [] => 0

/-- Skip past the first NUL byte: the `a + strlen(a) + 1` of map.c (used
there only when the two strings are equal, so using each list's own NUL is
exact). -/
def dropCStr (a : List Nat) : List Nat := (a.dropWhile (fun c => c ≠ 0)).drop 1

/-- av_map_strcmp_keyvalue from map.c: strcmp on the key part, then on the
value part after the key's terminator. -/
def avMapStrcmpKeyvalue (a b : List Nat) : Int :=
  let v := cstrcmp a b
  if v ≠ 0 then v else cstrcmp (dropCStr a) (dropCStr b)

/-- av_map_supercmp_key from map.c: case-insensitive compare refined by an
exact strcmp tie-break. -/
def avMapSupercmpKey (a b : List Nat) : Int :=
  let v := avStrcasecmp a b
  if v ≠ 0 then v else cstrcmp a b

/-- av_map_supercmp_keyvalue from map.c: av_map_supercmp_key on the key,
then strcmp on the value part. -/
def avMapSupercmpKeyvalue (a b : List Nat) : Int :=
  let v := avMapSupercmpKey a b
  if v ≠ 0 then v else cstrcmp (dropCStr a) (dropCStr b)

/-- One committed arena entry run: the AVMapEntry header plus its key and
value bytes, identified by the slot index its run starts at.  `tomb`
records whether `map_entry.key` has been overwritten with the
`&deleted_entry` tombstone sentinel. -/
structure EntryRec where
  start : Nat
  keylen : Nat
  valuelen : Nat
  keyBytes : List Nat
  valueBytes : List Nat
  tomb : Bool
deriving Repr, DecidableEq

/-- The concatenated key+value bytes an element pointer designates. -/
def kvBytes (r : EntryRec) : List Nat := r.keyBytes ++ r.valueBytes

/-- struct AVMap from map.c at the index level: the arena is the list of
committed entry runs in slot order (runs are contiguous: each `start` is
the previous `start` plus its run length), `next` is the next-free-slot
cursor, `tree` stores element pointers as start-slot indices.  `allocated`
is `internal_entries != NULL`; `capacity` tracks the grown
`internal_entries_len` in slots.  Relocation of the arena base is the
identity at this level (slot indices are stable); its address-level
behaviour is modelled separately. -/
structure MapB where
  entries : List EntryRec
  next : Nat
  count : Int
  deleted : Int
  capacity : Nat
  allocated : Bool
  tree : AVTree Nat
deriving Repr, DecidableEq

/-- av_map_new from map.c (the comparator and callbacks are passed to the
operations explicitly; the C struct stores them at construction). -/
def avMapNewB : MapB :=
  { entries := [], next := 0, count := 0, deleted := 0, capacity := 0,
    allocated := false, tree := .nil }

/-- internal_entry_len from map.c on LP64:
`(keylen + valuelen + sizeof(AVMapInternalEntry) + sizeof(AVTreeNode) - 1) / sizeof(AVMapInternalEntry) + 1`
with sizeof(AVMapInternalEntry) = 24 and sizeof(AVTreeNode) = 32. -/
def internal_entry_len (keylen valuelen : Nat) : Nat :=
  (keylen + valuelen + 24 + 32 - 1) / 24 + 1

/-- Dereference an element pointer: committed entries live at their start
slot; `extra` carries non-arena byte buffers (the user's search keyvalue,
or the just-written uncommitted entry at the cursor), which in C are
distinct allocations and so never alias committed slots. -/
def memB (s : MapB) (extra : List (Nat × List Nat)) (p : Nat) : List Nat :=
  match extra.find? (fun q => q.1 == p) with
  | some q => q.2
  | none =>
      match s.entries.find? (fun r => r.start == p) with
      | some r => kvBytes r
      | none => []

/-- av_map_realloc from map.c at the index level: computes the slot
advance with the C arithmetic and the INT32_MAX overflow check; the
av_fast_realloc growth itself always succeeds here and never moves the
base (address-level relocation is modelled separately). -/
def avMapReallocB (s : MapB) (extra_elements extra_space : Nat) : Int × MapB :=
  let advance : Int :=
    (extra_elements : Int) +
      ((extra_space : Int) + (extra_elements : Int) * (24 + 32 - 1)) / 24
  if advance > (2147483647 - (s.next : Int)) / 24 then
    (-12, s)
  else
    (advance, { s with capacity := max s.capacity (s.next + advance.toNat),
                       allocated := true })

/-- Tombstone the committed entry whose run starts at `p`
(`internal_entry->map_entry.key = &deleted_entry`). -/
def tombstoneAt (s : MapB) (p : Nat) : MapB :=
  { s with entries := s.entries.map (fun r => if r.start = p then { r with tomb := true } else r) }

/-- av_map_del from map.c, for flags without AV_MAP_ALLOW_REBUILD (no
claim exercises the rebuild branch).  `sameCmp` is the pointer equality
`cmp == s->cmp_keyvalue`; `kp` is the address of the caller's keyvalue
bytes and `extra` binds it (and, when called from av_map_add's REPLACE
path, the uncommitted entry at the cursor). -/
def avMapDelB (cmpKV : List Nat → List Nat → Int)
    (cmpU : List Nat → List Nat → Int) (sameCmp : Bool)
    (s : MapB) (kp : Nat) (extra : List (Nat × List Nat)) : Int × MapB :=
  let mem := memB s extra
  if sameCmp then
    let r := avTreeInsert (fun a b => cmpKV (mem a) (mem b)) s.tree kp none
    match r.next with
    | none => (0, { s with tree := r.tree })
    | some v =>
        let oldp := v.getD 0
        let s1 := tombstoneAt { s with tree := r.tree } oldp
        (1, { s1 with count := s1.count - 1, deleted := s1.deleted + 1 })
  else
    match (avTreeFind2 (fun (k : Nat) (e : Nat) => cmpU (mem k) (mem e)) kp 0 s.tree none).1 with
    | none => (0, s)
    | some oldp =>
        let r := avTreeInsert (fun a b => cmpKV (mem a) (mem b)) s.tree oldp none
        let s1 := tombstoneAt { s with tree := r.tree } oldp
        (1, { s1 with count := s1.count - 1, deleted := s1.deleted + 1 })

/-- av_map_add from map.c, for flags 0 or AV_MAP_REPLACE: reserve space,
write the new entry at the cursor, try to link it into the tree; on an
equal element return 0 without advancing the cursor (or tombstone-and-
reinsert under REPLACE, returning 2); on success commit the entry and
return 1. -/
def avMapAddB (cmpKV : List Nat → List Nat → Int) (s : MapB)
    (key : List Nat) (keylen : Nat) (value : List Nat) (valuelen : Nat)
    (replace : Bool) : Int × MapB :=
  let ra := avMapReallocB s 1 (keylen + valuelen)
  if ra.1 < 0 then (ra.1, s)
  else
    let s1 := ra.2
    let advance := ra.1.toNat
    let temp : EntryRec :=
      { start := s1.next, keylen := keylen, valuelen := valuelen,
        keyBytes := key.take keylen, valueBytes := value.take valuelen,
        tomb := false }
    let mem := memB s1 [(s1.next, kvBytes temp)]
    let r := avTreeInsert (fun a b => cmpKV (mem a) (mem b)) s1.tree s1.next (some none)
    if r.ret ≠ some s1.next ∧ r.ret.isSome then
      if replace then
        let dl := avMapDelB cmpKV cmpKV true { s1 with tree := r.tree }
          s1.next [(s1.next, kvBytes temp)]
        let s2 := dl.2
        let mem2 := memB s2 [(s1.next, kvBytes temp)]
        let r2 := avTreeInsert (fun a b => cmpKV (mem2 a) (mem2 b)) s2.tree s1.next (some none)
        (2, { s2 with tree := r2.tree, next := s2.next + advance,
                      count := s2.count + 1, entries := s2.entries ++ [temp] })
      else
        (0, { s1 with tree := r.tree })
    else
      (1, { s1 with tree := r.tree, next := s1.next + advance,
                    count := s1.count + 1, entries := s1.entries ++ [temp] })

/-- av_map_get from map.c: av_tree_find2 with a NULL next array, mapping
the found keyvalue pointer back to its entry (`keyvalue2internal`). -/
def avMapGetB (s : MapB) (cmpU : List Nat → List Nat → Int)
    (kv : List Nat) : Option EntryRec :=
  let mem := memB s []
  match (avTreeFind2 (fun (k : List Nat) (e : Nat) => cmpU k (mem e)) kv 0 s.tree none).1 with
  | none => none
  | some p => s.entries.find? (fun r => r.start == p)

/-- av_map_get_multiple from map.c, returning the element pointer (start
slot) of the entry it would return.  With `prev` set, re-finds prev's
keyvalue under the construction comparator with a 2-slot next array and
steps to the in-order successor if it is still cmp-equal; otherwise finds
the leftmost cmp-equal element with a 4-slot next array. -/
def avMapGetMultipleB (cmpKV : List Nat → List Nat → Int) (s : MapB)
    (prev : Option Nat) (kv : List Nat)
    (cmpU : List Nat → List Nat → Int) : Option Nat :=
  let mem := memB s []
  match prev with
  | some pp =>
      let fr := avTreeFind2 (fun (a : Nat) (e : Nat) => cmpKV (mem a) (mem e)) pp 2 s.tree
        (some { n0 := none, n1 := none, n2 := none, n3 := none })
      match (fr.2.getD { n0 := none, n1 := none, n2 := none, n3 := none }).n1 with
      | none => none
      | some nxt => if cmpU (mem nxt) kv ≠ 0 then none else some nxt
  | none =>
      let fr := avTreeFind2 (fun (k : List Nat) (e : Nat) => cmpU k (mem e)) kv 4 s.tree
        (some { n0 := none, n1 := none, n2 := none, n3 := none })
      Option.or (fr.2.getD { n0 := none, n1 := none, n2 := none, n3 := none }).n2 fr.1

/-- av_map_iterate from map.c as the full iteration sequence: the cursor
walks the committed runs in slot order (they are contiguous, each start
slot following the previous run) and skips tombstoned runs, stopping at
`next`. -/
def avMapIterateListB (s : MapB) : List EntryRec :=
  s.entries.filter (fun r => !r.tomb)

/-- av_map_count from map.c. -/
def avMapCountB (s : MapB) : Int := s.count

/-- av_map_clone from map.c at the index level.  `av_memdup` (libavutil
mem.c, not among these sources) returns NULL when its source pointer is
NULL, so cloning a map whose arena was never allocated fails; otherwise
the clone is a byte copy plus rebasing, which at the index level is the
source map itself. -/
def avMapCloneB (s : MapB) : Option MapB :=
  if s.allocated then some s else none

/-- The element pointers stored in the tree, in tree order. -/
def treeElems (s : MapB) : List Nat := inorder s.tree

/-- The start slots of the committed entries that are not tombstoned. -/
def liveStarts (s : MapB) : List Nat :=
  (s.entries.filter (fun r => !r.tomb)).map (fun r => r.start)

end AVMapModel

namespace AVMapAddr

open AVTreeModel AVMapModel

/-- Address of the AVTreeNode embedded in the entry run starting at slot
`slot` of an arena based at `base`: `internal_treenode(internal_entries + slot)`
is `base + slot*sizeof(AVMapInternalEntry) + offsetof(AVMapInternalEntry, treenode_and_keyvalue)`
with sizeof(AVMapInternalEntry) = 24 on LP64 (two pointers and two ints)
and the flexible array starting right after the 24-byte header. -/
def entryNodeAddr (base : Int) (slot : Nat) : Int := base + 24 * slot + 24

/-- The rebased tree root av_map_realloc computes after av_fast_realloc
moved the arena:
`s->tree_root - internal_treenode(s->internal_entries) + internal_treenode(new_root)`.
The subtraction is AVTreeNode* pointer arithmetic, dividing the byte
distance by sizeof(AVTreeNode) = 32.  Node addresses sit on the 24-byte
slot grid, so the distance need not be a multiple of 32; exact division is
then undefined behaviour in C, and compilers emit an arithmetic shift,
i.e. floor division, which this model uses. -/
def reallocTreeRoot (oldBase newBase rootAddr : Int) : Int :=
  newBase + 24 + 32 * ((rootAddr - (oldBase + 24)).fdiv 32)

/-- One child-pointer rebase of av_tree_move: `t->child[i] - old + t`,
with `old` the node's old address and `newNodeAddr` its new address,
again in AVTreeNode* units (floor division by 32). -/
def treeMoveChild (childAddr oldNodeAddr newNodeAddr : Int) : Int :=
  newNodeAddr + 32 * ((childAddr - oldNodeAddr).fdiv 32)

/-- A map at the buffer-identity level: its index-level contents plus the
allocation the arena occupies and the allocation the tree's root and node
pointers refer into (they agree except on av_map_copy's failure path). -/
structure CMap where
  m : MapB
  arenaBuf : Nat
  treeBuf : Nat
deriving Repr, DecidableEq

/-- The set of live allocations and a fresh-id counter. -/
structure Heap where
  live : List Nat
  freshId : Nat
deriving Repr, DecidableEq

/-- av_map_get on a buffer-identity map: following tree_root dereferences
node pointers inside `treeBuf`; if that allocation has been freed the read
is undefined behaviour, reported here as a failed lookup. -/
def avMapGetC (c : CMap) (heap : Heap) (cmpU : List Nat → List Nat → Int)
    (kv : List Nat) : Option EntryRec :=
  if c.treeBuf ∈ heap.live then avMapGetB c.m cmpU kv else none

/-- The loop of av_map_copy over the live source entries.  `failAt i`
injects an allocation failure (av_fast_realloc returning NULL inside the
i-th av_map_add); the C failure path then runs
`av_free(dst->internal_entries); memcpy(dst, bak, sizeof(*dst));`,
which frees the current arena, restores the pre-call struct (including the
pre-call tree_root pointer into the now freed buffer) and installs bak's
snapshot copy as the arena. -/
def avMapCopyGo (cmpKV : List Nat → List Nat → Int) (failAt : Nat → Bool)
    (bakm : MapB) (bakId : Nat) (origTree : Nat) :
    List EntryRec → Nat → CMap → Heap → Int × CMap × Heap
  | [], _, dstc, heap =>
      (0, dstc, { heap with live := heap.live.erase bakId })
  | t :: rest, i, dstc, heap =>
      if failAt i then
        (-12,
         { m := bakm, arenaBuf := bakId, treeBuf := origTree },
         { heap with live := heap.live.erase dstc.arenaBuf })
      else
        let a := avMapAddB cmpKV dstc.m t.keyBytes t.keylen t.valueBytes t.valuelen false
        avMapCopyGo cmpKV failAt bakm bakId origTree rest (i + 1)
          { dstc with m := a.2 } heap

/-- av_map_copy from map.c at the buffer-identity level: snapshot the
struct and a fresh copy of the arena bytes into `bak`, then re-add every
live source entry; on a failing add, free the destination arena and
restore the snapshot struct. -/
def avMapCopyC (cmpKV : List Nat → List Nat → Int) (dst : CMap) (heap : Heap)
    (src : MapB) (failAt : Nat → Bool) : Int × CMap × Heap :=
  let bakId := heap.freshId
  let heap1 : Heap := { live := bakId :: heap.live, freshId := heap.freshId + 1 }
  avMapCopyGo cmpKV failAt dst.m bakId dst.treeBuf (avMapIterateListB src) 0 dst heap1

end AVMapAddr

namespace Claims

open AVTreeModel AVMapModel AVMapAddr

/-- C4 (confirmed): after every av_tree_insert call, in insertion mode or
deletion mode and under any comparator, every node of a wellformed tree
still has subtree heights differing by at most 1 and a `state` field equal
to the signed height difference (`wfb` states exactly this for every
node, bounding the state to -1..1). -/
theorem claim_C4 {α : Type} (cmp : α → α → Int) (t : AVTree α) (key : α)
    (nx : Option (Option α)) (hw : wfb t = true) :
    wfb (avTreeInsert cmp t key nx).tree = true :=
  (avTreeInsert_spec cmp t key nx hw).1

/-- Witness for C4 at a concrete input: inserting 5 into the balanced tree
holding 1, 2, 3 keeps the balance invariant. -/
theorem claim_C4_witness :
    wfb (AVTree.node (AVTree.node .nil .nil (1:Int) 0) (AVTree.node .nil .nil 3 0) 2 0) = true ∧
    wfb (avTreeInsert (fun a b : Int => a - b)
      (AVTree.node (AVTree.node .nil .nil (1:Int) 0) (AVTree.node .nil .nil 3 0) 2 0)
      5 (some none)).tree = true :=
  ⟨by decide, claim_C4 (fun a b : Int => a - b) _ 5 (some none) (by decide)⟩

/-- C1 (code bug): on a strcmp-keyed map, after add("a"), add("b"),
add("c") (entries at slots 0, 3, 6; the balanced tree's root is entry 3),
av_map_del(map, "b", strcmp, 0) takes the same-comparator path and
tombstones `next->elem`.  Because the deleted node had children,
av_tree_insert moved the predecessor's element into it and vacated the
predecessor's node, so the entry tombstoned is "a" (slot 0), not "b":
afterwards the tree indexes exactly the byte buffers of entries 0 and 6
while the non-tombstoned entries are 3 and 6, iteration still yields the
deleted key "b", and looking "a" up returns its tombstoned entry. -/
theorem claim_C1 :
    (avMapDelB cstrcmp cstrcmp true
        (avMapAddB cstrcmp (avMapAddB cstrcmp (avMapAddB cstrcmp avMapNewB
          [97,0] 2 [120,0] 2 false).2 [98,0] 2 [120,0] 2 false).2
          [99,0] 2 [120,0] 2 false).2
        1000000000 [(1000000000, [98,0])]).1 = 1 ∧
    (let d := (avMapDelB cstrcmp cstrcmp true
        (avMapAddB cstrcmp (avMapAddB cstrcmp (avMapAddB cstrcmp avMapNewB
          [97,0] 2 [120,0] 2 false).2 [98,0] 2 [120,0] 2 false).2
          [99,0] 2 [120,0] 2 false).2
        1000000000 [(1000000000, [98,0])]).2
     treeElems d = [0, 6] ∧ liveStarts d = [3, 6] ∧
     (0 ∈ treeElems d ∧ 0 ∉ liveStarts d) ∧
     (3 ∈ liveStarts d ∧ 3 ∉ treeElems d) ∧
     (avMapIterateListB d).map (fun r => r.keyBytes) = [[98,0],[99,0]] ∧
     (avMapGetB d cstrcmp [97,0]).map (fun r => r.tomb) = some true) := by
  decide

/-- C10 (confirmed): a freshly created map has count 0 and its arena was
never allocated; av_map_clone duplicates the NULL `internal_entries` with
av_memdup, which returns NULL for a NULL source, so the clone attempt
fails and returns NULL instead of producing an empty clone. -/
theorem claim_C10 :
    avMapCountB avMapNewB = 0 ∧ avMapCloneB avMapNewB = none := by
  decide

/-- C8 (corrected): add("foo","bar") then add("foo","bear") without
REPLACE returns 1 (entry inserted, both stored) when the map is built
with the key+value comparator av_map_strcmp_keyvalue, and returns 0 when
built with the key-only comparator strcmp — the opposite of the claim's
pairing (the map test asserts exactly this: `{0,1,0}` for
strcmp / strcmp_keyvalue / strcasecmp). -/
theorem claim_C8_counterexample :
    (avMapAddB avMapStrcmpKeyvalue
      (avMapAddB avMapStrcmpKeyvalue avMapNewB [102,111,111,0] 4 [98,97,114,0] 4 false).2
      [102,111,111,0] 4 [98,101,97,114,0] 5 false).1 = 1 := by
  decide

/-- C8 (amended): under the key+value comparator the second add returns 1
and both entries are stored (count 2); under the key-only strcmp
comparator it returns 0. -/
theorem claim_C8 :
    (avMapAddB avMapStrcmpKeyvalue
      (avMapAddB avMapStrcmpKeyvalue avMapNewB [102,111,111,0] 4 [98,97,114,0] 4 false).2
      [102,111,111,0] 4 [98,101,97,114,0] 5 false).1 = 1 ∧
    avMapCountB (avMapAddB avMapStrcmpKeyvalue
      (avMapAddB avMapStrcmpKeyvalue avMapNewB [102,111,111,0] 4 [98,97,114,0] 4 false).2
      [102,111,111,0] 4 [98,101,97,114,0] 5 false).2 = 2 ∧
    (avMapAddB cstrcmp
      (avMapAddB cstrcmp avMapNewB [102,111,111,0] 4 [98,97,114,0] 4 false).2
      [102,111,111,0] 4 [98,101,97,114,0] 5 false).1 = 0 := by
  decide

/-- C5 (counterexample): with the key+value construction comparator
av_map_strcmp_keyvalue, add(k,v1) followed by add(k,v2,REPLACE) does not
find an equal entry (the values differ), so it inserts and returns 1 —
not 2 — and count() becomes 2, refuting "returns 2 ... count() stays 1"
as stated for an arbitrary construction comparator. -/
theorem claim_C5_counterexample :
    (avMapAddB avMapStrcmpKeyvalue
      (avMapAddB avMapStrcmpKeyvalue avMapNewB [107,0] 2 [49,0] 2 false).2
      [107,0] 2 [50,0] 2 true).1 = 1 ∧
    avMapCountB (avMapAddB avMapStrcmpKeyvalue
      (avMapAddB avMapStrcmpKeyvalue avMapNewB [107,0] 2 [49,0] 2 false).2
      [107,0] 2 [50,0] 2 true).2 = 2 ∧
    ¬((avMapAddB avMapStrcmpKeyvalue
        (avMapAddB avMapStrcmpKeyvalue avMapNewB [107,0] 2 [49,0] 2 false).2
        [107,0] 2 [50,0] 2 true).1 = 2 ∧
      avMapCountB (avMapAddB avMapStrcmpKeyvalue
        (avMapAddB avMapStrcmpKeyvalue avMapNewB [107,0] 2 [49,0] 2 false).2
        [107,0] 2 [50,0] 2 true).2 = 1) := by
  decide

/-- C5 (amended): on a fresh map whose construction comparator is the
key-only strcmp, add(k,v1) returns 1; add(k,v2,REPLACE) finds the equal
entry — a leaf, so the found entry itself is tombstoned — inserts the new
one and returns 2; a further add(k,v3) without REPLACE returns 0; get(k)
returns the entry with value v2 and count() stays 1.  The REPLACE path
tombstones the found entry only in the leaf case: on the map holding
"a","b","c" (slots 0,3,6; the tree roots at "b", which has children),
add("b",v,REPLACE) still returns 2 but the same-comparator delete inside
the REPLACE path tombstones the in-order neighbour "a" (slot 0) instead,
and the replaced entry "b" (slot 3) stays live. -/
theorem claim_C5 :
    (avMapAddB cstrcmp avMapNewB [107,0] 2 [49,0] 2 false).1 = 1 ∧
    (avMapAddB cstrcmp
      (avMapAddB cstrcmp avMapNewB [107,0] 2 [49,0] 2 false).2
      [107,0] 2 [50,0] 2 true).1 = 2 ∧
    (avMapAddB cstrcmp
      (avMapAddB cstrcmp
        (avMapAddB cstrcmp avMapNewB [107,0] 2 [49,0] 2 false).2
        [107,0] 2 [50,0] 2 true).2
      [107,0] 2 [51,0] 2 false).1 = 0 ∧
    (avMapGetB (avMapAddB cstrcmp
        (avMapAddB cstrcmp avMapNewB [107,0] 2 [49,0] 2 false).2
        [107,0] 2 [50,0] 2 true).2
      cstrcmp [107,0]).map (fun r => (r.valueBytes, r.tomb)) = some ([50,0], false) ∧
    avMapCountB (avMapAddB cstrcmp
      (avMapAddB cstrcmp avMapNewB [107,0] 2 [49,0] 2 false).2
      [107,0] 2 [50,0] 2 true).2 = 1 ∧
    (avMapAddB cstrcmp
      (avMapAddB cstrcmp (avMapAddB cstrcmp (avMapAddB cstrcmp avMapNewB
        [97,0] 2 [120,0] 2 false).2 [98,0] 2 [120,0] 2 false).2
        [99,0] 2 [120,0] 2 false).2
      [98,0] 2 [110,0] 2 true).1 = 2 ∧
    ((avMapAddB cstrcmp
      (avMapAddB cstrcmp (avMapAddB cstrcmp (avMapAddB cstrcmp avMapNewB
        [97,0] 2 [120,0] 2 false).2 [98,0] 2 [120,0] 2 false).2
        [99,0] 2 [120,0] 2 false).2
      [98,0] 2 [110,0] 2 true).2.entries.filter (fun r => r.tomb)).map
        (fun r => (r.start, r.keyBytes)) = [(0, [97,0])] ∧
    liveStarts (avMapAddB cstrcmp
      (avMapAddB cstrcmp (avMapAddB cstrcmp (avMapAddB cstrcmp avMapNewB
        [97,0] 2 [120,0] 2 false).2 [98,0] 2 [120,0] 2 false).2
        [99,0] 2 [120,0] 2 false).2
      [98,0] 2 [110,0] 2 true).2 = [3, 6, 9] := by
  decide

/-- C9 (counterexample): writing ("foo","bear") into a strcmp-keyed map
already holding ("foo","bar") returns 0, but the next-free-slot cursor is
NOT advanced past the written run: `return 0` in av_map_add happens before
`s->next += advance`, so `next` stays 3 instead of moving to 6 (the run
occupies internal_entry_len(4,5) = 3 slots). -/
theorem claim_C9_counterexample :
    (avMapAddB cstrcmp
      (avMapAddB cstrcmp avMapNewB [102,111,111,0] 4 [98,97,114,0] 4 false).2
      [102,111,111,0] 4 [98,101,97,114,0] 5 false).1 = 0 ∧
    (avMapAddB cstrcmp
      (avMapAddB cstrcmp avMapNewB [102,111,111,0] 4 [98,97,114,0] 4 false).2
      [102,111,111,0] 4 [98,101,97,114,0] 5 false).2.next = 3 ∧
    internal_entry_len 4 5 = 3 ∧
    ¬((avMapAddB cstrcmp
        (avMapAddB cstrcmp avMapNewB [102,111,111,0] 4 [98,97,114,0] 4 false).2
        [102,111,111,0] 4 [98,101,97,114,0] 5 false).2.next = 3 + internal_entry_len 4 5) := by
  decide

/-- C9 (amended): on the duplicate path av_map_add returns 0 and leaves
the map logically unchanged — cursor, count and committed entries are
exactly as before, because `return 0` precedes the cursor advance (only
the arena capacity may have grown, since av_map_realloc runs before the
duplicate is detected) — and the slot run just written is reused by the
next successful add, which commits its entry at the same start slot 3;
no arena space is wasted by the duplicate. -/
theorem claim_C9 :
    (avMapAddB cstrcmp
      (avMapAddB cstrcmp avMapNewB [102,111,111,0] 4 [98,97,114,0] 4 false).2
      [102,111,111,0] 4 [98,101,97,114,0] 5 false).2.next =
      (avMapAddB cstrcmp avMapNewB [102,111,111,0] 4 [98,97,114,0] 4 false).2.next ∧
    (avMapAddB cstrcmp
      (avMapAddB cstrcmp avMapNewB [102,111,111,0] 4 [98,97,114,0] 4 false).2
      [102,111,111,0] 4 [98,101,97,114,0] 5 false).2.count =
      (avMapAddB cstrcmp avMapNewB [102,111,111,0] 4 [98,97,114,0] 4 false).2.count ∧
    (avMapAddB cstrcmp
      (avMapAddB cstrcmp avMapNewB [102,111,111,0] 4 [98,97,114,0] 4 false).2
      [102,111,111,0] 4 [98,101,97,114,0] 5 false).2.entries =
      (avMapAddB cstrcmp avMapNewB [102,111,111,0] 4 [98,97,114,0] 4 false).2.entries ∧
    (avMapAddB cstrcmp
      (avMapAddB cstrcmp avMapNewB [102,111,111,0] 4 [98,97,114,0] 4 false).2
      [102,111,111,0] 4 [98,101,97,114,0] 5 false).2.tree =
      (avMapAddB cstrcmp avMapNewB [102,111,111,0] 4 [98,97,114,0] 4 false).2.tree ∧
    (avMapAddB cstrcmp
      (avMapAddB cstrcmp
        (avMapAddB cstrcmp avMapNewB [102,111,111,0] 4 [98,97,114,0] 4 false).2
        [102,111,111,0] 4 [98,101,97,114,0] 5 false).2
      [122,0] 2 [122,0] 2 false).2.entries.map (fun r => r.start) = [0, 3] := by
  decide

/-- C3 (code bug): after the three adds of claim C1's prefix the balanced
tree's root is the node embedded in the entry at slot 3 (children at slots
0 and 6).  If av_fast_realloc moves the arena (here by 1024 bytes), the
rebasing arithmetic of av_map_realloc and av_tree_move computes pointer
differences between nodes on the 24-byte slot grid in units of
sizeof(AVTreeNode) = 32: the rebased tree root lands at offset 1112
instead of the root's true new address 1120, and rebasing the root's
child[0] pointer (even from the correct new root address) yields 1024
instead of 1048, so the relocated tree is corrupted instead of being
rebased by the delta. -/
theorem claim_C3 :
    (avMapAddB cstrcmp (avMapAddB cstrcmp (avMapAddB cstrcmp avMapNewB
        [97,0] 2 [120,0] 2 false).2 [98,0] 2 [120,0] 2 false).2
        [99,0] 2 [120,0] 2 false).2.tree =
      AVTree.node (AVTree.node .nil .nil 0 0) (AVTree.node .nil .nil 6 0) 3 0 ∧
    reallocTreeRoot 0 1024 (entryNodeAddr 0 3) = 1112 ∧
    entryNodeAddr 1024 3 = 1120 ∧
    reallocTreeRoot 0 1024 (entryNodeAddr 0 3) ≠ entryNodeAddr 1024 3 ∧
    treeMoveChild (entryNodeAddr 0 0) (entryNodeAddr 0 3) (entryNodeAddr 1024 3) = 1024 ∧
    entryNodeAddr 1024 0 = 1048 ∧
    treeMoveChild (entryNodeAddr 0 0) (entryNodeAddr 0 3) (entryNodeAddr 1024 3)
      ≠ entryNodeAddr 1024 0 := by
  decide

/-- C2 (code bug): dst holds ("a","x") in buffer 0 and its tree points
into buffer 0; av_map_copy snapshots the arena into a fresh buffer 1, the
first av_map_add of src's entry ("b","y") fails with ENOMEM, and the
rollback frees buffer 0 and installs the snapshot struct: afterwards
count() is restored to 1, but dst's tree_root (and the entry pointers
inside the snapshot) still reference the freed buffer 0, so the lookup
that succeeded before the call now dereferences freed memory and fails,
contradicting "dst is left exactly in its pre-call state". -/
theorem claim_C2 :
    (avMapGetC
        { m := (avMapAddB cstrcmp avMapNewB [97,0] 2 [120,0] 2 false).2,
          arenaBuf := 0, treeBuf := 0 }
        { live := [0], freshId := 1 } cstrcmp [97,0]).map (fun r => r.keyBytes)
      = some [97,0] ∧
    (avMapCopyC cstrcmp
        { m := (avMapAddB cstrcmp avMapNewB [97,0] 2 [120,0] 2 false).2,
          arenaBuf := 0, treeBuf := 0 }
        { live := [0], freshId := 1 }
        (avMapAddB cstrcmp avMapNewB [98,0] 2 [121,0] 2 false).2
        (fun _ => true)).1 = -12 ∧
    (avMapCopyC cstrcmp
        { m := (avMapAddB cstrcmp avMapNewB [97,0] 2 [120,0] 2 false).2,
          arenaBuf := 0, treeBuf := 0 }
        { live := [0], freshId := 1 }
        (avMapAddB cstrcmp avMapNewB [98,0] 2 [121,0] 2 false).2
        (fun _ => true)).2.1.treeBuf = 0 ∧
    0 ∉ (avMapCopyC cstrcmp
        { m := (avMapAddB cstrcmp avMapNewB [97,0] 2 [120,0] 2 false).2,
          arenaBuf := 0, treeBuf := 0 }
        { live := [0], freshId := 1 }
        (avMapAddB cstrcmp avMapNewB [98,0] 2 [121,0] 2 false).2
        (fun _ => true)).2.2.live ∧
    avMapCountB (avMapCopyC cstrcmp
        { m := (avMapAddB cstrcmp avMapNewB [97,0] 2 [120,0] 2 false).2,
          arenaBuf := 0, treeBuf := 0 }
        { live := [0], freshId := 1 }
        (avMapAddB cstrcmp avMapNewB [98,0] 2 [121,0] 2 false).2
        (fun _ => true)).2.1.m = 1 ∧
    avMapGetC (avMapCopyC cstrcmp
        { m := (avMapAddB cstrcmp avMapNewB [97,0] 2 [120,0] 2 false).2,
          arenaBuf := 0, treeBuf := 0 }
        { live := [0], freshId := 1 }
        (avMapAddB cstrcmp avMapNewB [98,0] 2 [121,0] 2 false).2
        (fun _ => true)).2.1
      (avMapCopyC cstrcmp
        { m := (avMapAddB cstrcmp avMapNewB [97,0] 2 [120,0] 2 false).2,
          arenaBuf := 0, treeBuf := 0 }
        { live := [0], freshId := 1 }
        (avMapAddB cstrcmp avMapNewB [98,0] 2 [121,0] 2 false).2
        (fun _ => true)).2.2 cstrcmp [97,0] = none := by
  decide

/-- C7: av_tree_find2 with a caller-zeroed next array over a sign-sorted
element sequence: next[0] receives the nearest strictly-smaller element
seen on the descent (the last positive-comparing element in order),
next[1] the nearest strictly-greater one (the first negative-comparing
element); the return value is an equal element exactly when one exists;
and when a match exists and nextlen >= 4, next[2]/next[3] receive the
leftmost/rightmost equal elements reachable from the match's subtrees
(NULL when the match itself is the edge of the equal range), so that
next[2]-else-match and next[3]-else-match are the first and last elements
of the equal range. -/
theorem claim_C7 (cmp : κ → α → Int) (key : κ) (nextlen : Nat) (t : AVTree α)
    (hs : SignSorted (fun e => cmp key e) (inorder t)) :
    (zeros (fun e => cmp key e) (inorder t) = [] →
       (avTreeFind2 cmp key nextlen t (some ⟨none, none, none, none⟩)).1 = none ∧
       (avTreeFind2 cmp key nextlen t (some ⟨none, none, none, none⟩)).2 =
         some { n0 := Option.or (lastPos (fun e => cmp key e) (inorder t)) none,
                n1 := Option.or (firstNeg (fun e => cmp key e) (inorder t)) none,
                n2 := none, n3 := none }) ∧
    (zeros (fun e => cmp key e) (inorder t) ≠ [] →
       ∃ m z2 z3,
         (avTreeFind2 cmp key nextlen t (some ⟨none, none, none, none⟩)).1 = some m ∧
         m ∈ zeros (fun e => cmp key e) (inorder t) ∧
         (avTreeFind2 cmp key nextlen t (some ⟨none, none, none, none⟩)).2 =
           some { n0 := Option.or (lastPos (fun e => cmp key e) (inorder t)) none,
                  n1 := Option.or (firstNeg (fun e => cmp key e) (inorder t)) none,
                  n2 := z2, n3 := z3 } ∧
         (4 ≤ nextlen →
            Option.or z2 (some m) = (zeros (fun e => cmp key e) (inorder t)).head? ∧
            Option.or z3 (some m) = (zeros (fun e => cmp key e) (inorder t)).getLast?) ∧
         (¬ 4 ≤ nextlen → z2 = none ∧ z3 = none)) :=
  avTreeFind2_spec cmp key nextlen t ⟨none, none, none, none⟩ hs rfl rfl

def c7cmp : Int → Int → Int := fun k e => k - e

def c7tree : AVTree Int :=
  .node (.node .nil .nil 3 0) (.node .nil .nil 7 0) 5 0

theorem claim_C7_witness :
    SignSorted (fun e => c7cmp 5 e) (inorder c7tree) ∧
    ((zeros (fun e => c7cmp 5 e) (inorder c7tree) = [] →
       (avTreeFind2 c7cmp 5 4 c7tree (some ⟨none, none, none, none⟩)).1 = none ∧
       (avTreeFind2 c7cmp 5 4 c7tree (some ⟨none, none, none, none⟩)).2 =
         some { n0 := Option.or (lastPos (fun e => c7cmp 5 e) (inorder c7tree)) none,
                n1 := Option.or (firstNeg (fun e => c7cmp 5 e) (inorder c7tree)) none,
                n2 := none, n3 := none }) ∧
    (zeros (fun e => c7cmp 5 e) (inorder c7tree) ≠ [] →
       ∃ m z2 z3,
         (avTreeFind2 c7cmp 5 4 c7tree (some ⟨none, none, none, none⟩)).1 = some m ∧
         m ∈ zeros (fun e => c7cmp 5 e) (inorder c7tree) ∧
         (avTreeFind2 c7cmp 5 4 c7tree (some ⟨none, none, none, none⟩)).2 =
           some { n0 := Option.or (lastPos (fun e => c7cmp 5 e) (inorder c7tree)) none,
                  n1 := Option.or (firstNeg (fun e => c7cmp 5 e) (inorder c7tree)) none,
                  n2 := z2, n3 := z3 } ∧
         (4 ≤ 4 →
            Option.or z2 (some m) = (zeros (fun e => c7cmp 5 e) (inorder c7tree)).head? ∧
            Option.or z3 (some m) = (zeros (fun e => c7cmp 5 e) (inorder c7tree)).getLast?) ∧
         (¬ 4 ≤ 4 → z2 = none ∧ z3 = none))) :=
  ⟨by unfold SignSorted; decide, claim_C7 c7cmp 5 4 c7tree (by unfold SignSorted; decide)⟩

theorem pairwise_of_mem {α : Type} {r : α → α → Prop} :
    ∀ (l : List α), (∀ a ∈ l, ∀ b ∈ l, r a b) → l.Pairwise r
  | [], _ => List.Pairwise.nil
  | x :: xs, h =>
      List.Pairwise.cons (fun b hb => h x (by simp) b (by simp [hb]))
        (pairwise_of_mem xs (fun a ha b hb => h a (by simp [ha]) b (by simp [hb])))

theorem split_unique {α : Type} {a : α} :
    ∀ (L1 L2 R1 R2 : List α), a ∉ L1 → a ∉ L2 →
      L1 ++ a :: R1 = L2 ++ a :: R2 → L1 = L2 ∧ R1 = R2
  | [], [], R1, R2, _, _, h => by
      simp at h
      exact ⟨rfl, h⟩
  | [], x :: L2, R1, R2, h1, h2, h => by
      simp at h
      exact absurd (h.1 ▸ List.mem_cons_self x L2) h2
  | x :: L1, [], R1, R2, h1, h2, h => by
      simp at h
      exact absurd (h.1 ▸ List.mem_cons_self x L1) h1
  | x :: L1, y :: L2, R1, R2, h1, h2, h => by
      simp at h
      have ih := split_unique L1 L2 R1 R2
        (fun hm => h1 (List.mem_cons_of_mem x hm))
        (fun hm => h2 (List.mem_cons_of_mem y hm)) h.2
      exact ⟨by rw [h.1, ih.1], ih.2⟩

theorem phase_eq_two_iff {v : Int} : phase v = 2 ↔ v < 0 := by
  simp only [phase]
  split
  · simp
    omega
  · split <;> simp <;> omega

theorem phase_le_two (v : Int) : phase v ≤ 2 := by
  simp only [phase]
  split
  · omega
  · split <;> omega

set_option maxHeartbeats 1000000 in
/-- C6: over a map whose stored elements are strictly ordered by the
construction comparator (with anti-symmetric signs and reflexive zeros)
and whose elements are sign-sorted for the user comparator against the
searched keyvalue (the refinement contract: cmp-equal entries form one
contiguous run in tree order), av_map_get_multiple with prev = NULL
returns the leftmost cmp-equal entry (NULL if none), and with prev an
element of the equal run returns the next element of the run in tree
order, or NULL when prev was the last one — so repeated calls yield every
cmp-equal entry exactly once, in tree order, then NULL. -/
theorem claim_C6 (cmpKV cmpU : List Nat → List Nat → Int) (s : MapB) (kv : List Nat)
    (hstrict : (treeElems s).Pairwise
      (fun a b => cmpKV (memB s [] a) (memB s [] b) < 0))
    (hrefl : ∀ p ∈ treeElems s, cmpKV (memB s [] p) (memB s [] p) = 0)
    (hanti : ∀ a ∈ treeElems s, ∀ b ∈ treeElems s,
      cmpKV (memB s [] a) (memB s [] b) < 0 → 0 < cmpKV (memB s [] b) (memB s [] a))
    (hg : SignSorted (fun e => cmpU kv (memB s [] e)) (treeElems s))
    (hsym : ∀ p ∈ treeElems s, (cmpU (memB s [] p) kv = 0 ↔ cmpU kv (memB s [] p) = 0)) :
    avMapGetMultipleB cmpKV s none kv cmpU
      = (zeros (fun e => cmpU kv (memB s [] e)) (treeElems s)).head? ∧
    ∀ p L R, zeros (fun e => cmpU kv (memB s [] e)) (treeElems s) = L ++ p :: R →
      avMapGetMultipleB cmpKV s (some p) kv cmpU = R.head? := by
  constructor
  · -- prev = NULL: leftmost equal element
    have hspec := avTreeFind2_spec (fun (k : List Nat) (e : Nat) => cmpU k (memB s [] e))
      kv 4 s.tree ⟨none, none, none, none⟩ hg rfl rfl
    by_cases hz : zeros (fun e => cmpU kv (memB s [] e)) (inorder s.tree) = []
    · obtain ⟨h1, h2⟩ := hspec.1 hz
      simp only [avMapGetMultipleB]
      rw [h2, h1]
      simp [treeElems, hz, Option.or]
    · obtain ⟨m, z2, z3, h1, hm, h2, h4, _⟩ := hspec.2 hz
      simp only [avMapGetMultipleB]
      rw [h2, h1]
      simp only [Option.getD_some]
      exact (h4 (by norm_num)).1
  · -- prev = p: successor within the equal run
    intro p L R hsplit
    have hpzs : p ∈ zeros (fun e => cmpU kv (memB s [] e)) (treeElems s) := by
      rw [hsplit]; simp
    have hpel : p ∈ treeElems s ∧ cmpU kv (memB s [] p) = 0 := by
      simpa [zeros, List.mem_filter] using hpzs
    obtain ⟨L', R', hsp⟩ := List.append_of_mem hpel.1
    have hsp2 : inorder s.tree = L' ++ p :: R' := hsp
    have hstrict' := hsp ▸ hstrict
    have hg' := hsp ▸ hg
    rw [List.pairwise_append] at hstrict'
    obtain ⟨hsL, hsPR, hscross⟩ := hstrict'
    rw [List.pairwise_cons] at hsPR
    have hLlt : ∀ x ∈ L', cmpKV (memB s [] x) (memB s [] p) < 0 :=
      fun x hx => hscross x hx p (by simp)
    have hRlt : ∀ x ∈ R', cmpKV (memB s [] p) (memB s [] x) < 0 := hsPR.1
    have hLmem : ∀ x ∈ L', x ∈ treeElems s := fun x hx => by rw [hsp]; simp [hx]
    have hRmem : ∀ x ∈ R', x ∈ treeElems s := fun x hx => by rw [hsp]; simp [hx]
    have hgpL : ∀ x ∈ L', 0 < cmpKV (memB s [] p) (memB s [] x) :=
      fun x hx => hanti x (hLmem x hx) p hpel.1 (hLlt x hx)
    have hgp0 : cmpKV (memB s [] p) (memB s [] p) = 0 := hrefl p hpel.1
    have hpnL : p ∉ L' := fun hm => absurd hgp0 (by have := hLlt p hm; omega)
    have hpnR : p ∉ R' := fun hm => absurd hgp0 (by have := hRlt p hm; omega)
    -- sign-sortedness for the prev comparator fun e => cmpT p e
    have hss : SignSorted (fun e => cmpKV (memB s [] p) (memB s [] e)) (inorder s.tree) := by
      rw [SignSorted, hsp2, List.pairwise_append]
      refine ⟨pairwise_of_mem L' ?_, List.Pairwise.cons ?_ (pairwise_of_mem R' ?_), ?_⟩
      · intro a ha b hb
        have h1 := phase_eq_zero_iff.mpr (hgpL a ha)
        have h2 := phase_eq_zero_iff.mpr (hgpL b hb)
        omega
      · intro b hb
        have h1 := phase_eq_one_iff.mpr hgp0
        have h2 := one_le_phase_iff.mpr (le_of_lt (hRlt b hb))
        omega
      · intro a ha b hb
        have h1 := phase_eq_two_iff.mpr (hRlt a ha)
        have h2 := phase_eq_two_iff.mpr (hRlt b hb)
        omega
      · intro a ha b hb
        have h1 := phase_eq_zero_iff.mpr (hgpL a ha)
        omega
    -- the prev comparator has exactly one zero: p itself
    have hzgp : zeros (fun e => cmpKV (memB s [] p) (memB s [] e)) (inorder s.tree) = [p] := by
      rw [hsp2]
      simp only [zeros, List.filter_append, List.filter_cons]
      rw [List.filter_eq_nil_iff.mpr (fun x hx => by have := hgpL x hx; simp; omega),
          List.filter_eq_nil_iff.mpr (fun x hx => by have := hRlt x hx; simp; omega)]
      simp [hgp0]
    have hspec := avTreeFind2_spec
      (fun (a : Nat) (e : Nat) => cmpKV (memB s [] a) (memB s [] e))
      p 2 s.tree ⟨none, none, none, none⟩ hss rfl rfl
    obtain ⟨m, z2, z3, h1, hm, h2, h4, h5⟩ := hspec.2 (by rw [hzgp]; simp)
    -- the recorded in-order successor is the head of R'
    have hfn : firstNeg (fun e => cmpKV (memB s [] p) (memB s [] e)) (inorder s.tree)
        = R'.head? := by
      rw [hsp2]
      simp only [firstNeg, List.filter_append, List.filter_cons]
      rw [List.filter_eq_nil_iff.mpr (fun x hx => by have := hgpL x hx; simp; omega)]
      rw [List.filter_eq_self.mpr (fun x hx => by have := hRlt x hx; simp; omega)]
      simp [hgp0]
    -- identify R with the zeros of R'
    have hzs2 : zeros (fun e => cmpU kv (memB s [] e)) (treeElems s)
        = zeros (fun e => cmpU kv (memB s [] e)) L'
          ++ p :: zeros (fun e => cmpU kv (memB s [] e)) R' := by
      rw [show treeElems s = L' ++ p :: R' from hsp]
      simp only [zeros, List.filter_append, List.filter_cons]
      simp [hpel.2]
    have heq : L ++ p :: R
        = zeros (fun e => cmpU kv (memB s [] e)) L'
          ++ p :: zeros (fun e => cmpU kv (memB s [] e)) R' := by
      rw [← hsplit, ← hzs2]
    have hpnzL : p ∉ zeros (fun e => cmpU kv (memB s [] e)) L' :=
      fun hmm => hpnL (List.mem_of_mem_filter hmm)
    have hpnzR : p ∉ zeros (fun e => cmpU kv (memB s [] e)) R' :=
      fun hmm => hpnR (List.mem_of_mem_filter hmm)
    have hcL : (zeros (fun e => cmpU kv (memB s [] e)) L').count p = 0 :=
      List.count_eq_zero.mpr hpnzL
    have hcR : (zeros (fun e => cmpU kv (memB s [] e)) R').count p = 0 :=
      List.count_eq_zero.mpr hpnzR
    have hcnt := congrArg (List.count p) heq
    simp only [List.count_append, List.count_cons_self, hcL, hcR] at hcnt
    have hpnLL : p ∉ L := List.count_eq_zero.mp (by omega)
    have hRzR := (split_unique L (zeros (fun e => cmpU kv (memB s [] e)) L') R
      (zeros (fun e => cmpU kv (memB s [] e)) R') hpnLL hpnzL heq).2
    -- evaluate the call
    simp only [avMapGetMultipleB]
    rw [h2]
    simp only [Option.getD_some]
    rw [hfn]
    cases hR' : R' with
    | nil =>
        rw [hRzR, hR']
        simp [Option.or, zeros]
    | cons q R'' =>
        have hqel : q ∈ treeElems s := hRmem q (by rw [hR']; simp)
        simp only [Option.or, List.head?]
        by_cases hgq : cmpU kv (memB s [] q) = 0
        · have hc0 : cmpU (memB s [] q) kv = 0 := (hsym q hqel).mpr hgq
          rw [if_neg (by simp [hc0])]
          rw [hRzR, hR']
          simp [zeros, List.filter_cons, hgq]
        · have hc0 : cmpU (memB s [] q) kv ≠ 0 :=
            fun hc => hgq ((hsym q hqel).mp hc)
          rw [if_pos (by simp [hc0])]
          -- all of R' is negative for the search comparator: no zeros remain
          have hg'' := hsp ▸ hg
          rw [SignSorted, List.pairwise_append] at hg''
          have hgPR := hg''.2.1
          rw [List.pairwise_cons] at hgPR
          have hqphase : 1 ≤ phase (cmpU kv (memB s [] q)) := by
            have h7 := hgPR.1 q (by rw [hR']; simp)
            have h8 := phase_eq_one_iff.mpr hpel.2
            omega
          have hqneg : cmpU kv (memB s [] q) < 0 := by
            rcases lt_trichotomy (cmpU kv (memB s [] q)) 0 with h | h | h
            · exact h
            · exact absurd h hgq
            · have := phase_eq_zero_iff.mpr h
              omega
          have hR''neg : ∀ x ∈ R'', cmpU kv (memB s [] x) < 0 := by
            intro x hx
            have hpw := hR' ▸ hgPR.2
            rw [List.pairwise_cons] at hpw
            have h6 := hpw.1 x hx
            have h7 := phase_eq_two_iff.mpr hqneg
            have h8 := phase_le_two (cmpU kv (memB s [] x))
            exact phase_eq_two_iff.mp (by omega)
          rw [hRzR, hR']
          simp only [zeros, List.filter_cons]
          rw [if_neg (by simp [hgq])]
          rw [List.filter_eq_nil_iff.mpr (fun x hx => by have := hR''neg x hx; simp; omega)]

def c6map : MapB :=
  (avMapAddB avMapSupercmpKeyvalue
    (avMapAddB avMapSupercmpKeyvalue avMapNewB [65,0] 2 [49,0] 2 false).2
    [97,0] 2 [50,0] 2 false).2

theorem claim_C6_witness :
    ((treeElems c6map).Pairwise
      (fun a b => avMapSupercmpKeyvalue (memB c6map [] a) (memB c6map [] b) < 0)) ∧
    (∀ p ∈ treeElems c6map,
      avMapSupercmpKeyvalue (memB c6map [] p) (memB c6map [] p) = 0) ∧
    (∀ a ∈ treeElems c6map, ∀ b ∈ treeElems c6map,
      avMapSupercmpKeyvalue (memB c6map [] a) (memB c6map [] b) < 0 →
        0 < avMapSupercmpKeyvalue (memB c6map [] b) (memB c6map [] a)) ∧
    SignSorted (fun e => avStrcasecmp [97,0] (memB c6map [] e)) (treeElems c6map) ∧
    (∀ p ∈ treeElems c6map,
      (avStrcasecmp (memB c6map [] p) [97,0] = 0 ↔
        avStrcasecmp [97,0] (memB c6map [] p) = 0)) ∧
    (avMapGetMultipleB avMapSupercmpKeyvalue c6map none [97,0] avStrcasecmp
      = (zeros (fun e => avStrcasecmp [97,0] (memB c6map [] e)) (treeElems c6map)).head? ∧
     ∀ p L R,
       zeros (fun e => avStrcasecmp [97,0] (memB c6map [] e)) (treeElems c6map)
         = L ++ p :: R →
       avMapGetMultipleB avMapSupercmpKeyvalue c6map (some p) [97,0] avStrcasecmp
         = R.head?) :=
  ⟨by decide, by decide, by decide, by unfold SignSorted; decide, by decide,
   claim_C6 avMapSupercmpKeyvalue avStrcasecmp c6map [97,0]
     (by decide) (by decide) (by decide) (by unfold SignSorted; decide) (by decide)⟩

end Claims
